import Mathlib

/-!
# ws.hpp : the websocket session and its message handle

A shallow embedding of `src/lib/ws.hpp` (classes `ws::message`,
`ws::message::wrapper` and `ws::ws_session`).

* Bytes are natural numbers, buffers are lists of bytes.
* The websocket stream `ws_` is external (Boost.Beast).  It is modelled by the
  number of operations outstanding on it.  Beast allows at most one
  `async_read` and at most one `async_write` to be outstanding on a stream;
  starting a second one is undefined behaviour.
* Undefined behaviour has no successor state: the step is `none`.  Besides a
  second read or write these are the uses of dangling objects: an operation on
  a message object after its lifetime, `send()` through a wrapper that has been
  deleted, and a write to `data_out()` after the session, which owns the
  output buffer, has been destroyed.
* Every completion handler is bound to `shared_from_this()`, so the session
  object lives exactly as long as an operation is outstanding or a handler is
  running.  `World.expired` is `std::weak_ptr<ws_session>::expired()`.
* `ws_session.trace` is a ghost field: the operations the session issued, the
  dispatcher invocations and the calls of `fail`, in program order.
* Message objects are numbered in the order of their construction.  `on_read`
  constructs the argument object of the dispatcher call; a by-value parameter
  or a kept copy is a further object made by the move constructor.  The event
  `handler_return` ends the dispatcher call: the argument object is destroyed
  and the completion handler drops its reference to the session.
-/

namespace ws

/-- The enum `ws_session::state`. -/
inductive state where
  | none
  | reading
  | reading_completed
  | writing
  | writing_completed
  deriving DecidableEq, Repr

/-- A `beast::error_code` as the session tests it: no error,
`websocket::error::closed`, or any other error. -/
inductive error_code where
  | success
  | closed
  | failure
  deriving DecidableEq, Repr

/-- The `what` argument of `ws::fail`. -/
inductive failure_site where
  | accept
  | read
  | write
  deriving DecidableEq, Repr

/-- Observable actions of a session, recorded in program order. -/
inductive effect where
  | async_read
  | async_write (data : List Nat)
  | message_handler (data : List Nat)
  | fail (what : failure_site)
  deriving DecidableEq, Repr

/-- The stream `ws_`: how many operations of each kind are outstanding. -/
structure stream where
  accepts : Nat
  reads : Nat
  writes : Nat
  deriving DecidableEq, Repr

/-- The call `ws_.async_accept(...)`. -/
def stream.async_accept (t : stream) : stream :=
  { t with accepts := t.accepts + 1 }

/-- The call `ws_.async_read(...)`; undefined when a read is already outstanding. -/
def stream.async_read (t : stream) : Option stream :=
  if t.reads = 0 then some { t with reads := 1 } else none

/-- The call `ws_.async_write(...)`; undefined when a write is already outstanding. -/
def stream.async_write (t : stream) : Option stream :=
  if t.writes = 0 then some { t with writes := 1 } else none

/-- The class `ws_session`: `state_`, `ws_`, `input_buffer`, `output_buffer`
(the readable bytes of each buffer) and the ghost trace. -/
structure ws_session where
  state_ : state
  ws_ : stream
  input_buffer : List Nat
  output_buffer : List Nat
  trace : List effect
  deriving DecidableEq, Repr

/-- The constructor of `ws_session`: `state_ = state::none`, nothing outstanding. -/
def ws_session.new : ws_session :=
  { state_ := state.none, ws_ := { accepts := 0, reads := 0, writes := 0 },
    input_buffer := [], output_buffer := [], trace := [] }

/-- The method `ws_session::on_run`: issues the handshake `async_accept`. -/
def ws_session.on_run (s : ws_session) : ws_session :=
  { s with ws_ := s.ws_.async_accept }

/-- The function `ws::fail`, called on behalf of a session. -/
def ws_session.fail (s : ws_session) (what : failure_site) : ws_session :=
  { s with trace := s.trace ++ [effect.fail what] }

/-- The method `ws_session::do_read`. -/
def ws_session.do_read (s : ws_session) : Option ws_session :=
  if s.state_ = state.writing ∨ s.state_ = state.reading then some s
  else
    match s.ws_.async_read with
    | some t =>
      some { s with state_ := state.reading, input_buffer := [], ws_ := t,
                    trace := s.trace ++ [effect.async_read] }
    | none => none

/-- The method `ws_session::do_write`: the write carries `output_buffer.data()`. -/
def ws_session.do_write (s : ws_session) : Option ws_session :=
  match s.ws_.async_write with
  | some t =>
    some { s with state_ := state.writing, ws_ := t,
                  trace := s.trace ++ [effect.async_write s.output_buffer] }
  | none => none

/-- The method `ws_session::on_accept`. -/
def ws_session.on_accept (s : ws_session) (ec : error_code) : Option ws_session :=
  if ec ≠ error_code.success then some (s.fail failure_site.accept)
  else s.do_read

/-- The method `ws_session::on_write`. -/
def ws_session.on_write (s : ws_session) (ec : error_code) : Option ws_session :=
  let s1 := { s with state_ := state.writing_completed }
  if ec ≠ error_code.success then some (s1.fail failure_site.write)
  else ({ s1 with output_buffer := [] }).do_read

/-- The class `message`.  `base_` is the address of the heap-allocated
`wrapper`; `buffer_read` is the byte range the view denoted when the handle was
constructed.  The stream `os` writes into the output buffer of the one session
of the model. -/
structure message where
  base_ : Nat
  is_owning : Bool
  is_sent : Bool
  buffer_read : List Nat
  deriving DecidableEq, Repr

/-- The method `message::data`. -/
def message.data (m : message) : List Nat := m.buffer_read

/-- One session together with the message objects constructed from it.
`heap[b]` tells whether the wrapper at address `b` is still allocated;
`handles[h]` is the message object `h`, `none` once its lifetime has ended;
`in_handler` is the argument object of the dispatcher call in progress. -/
structure World where
  session : ws_session
  expired : Bool
  heap : List Bool
  handles : List (Option message)
  in_handler : Option Nat
  deriving DecidableEq, Repr

/-- A session on which `run()` has been called: the handshake is outstanding. -/
def World.init : World :=
  { session := ws_session.new.on_run, expired := false, heap := [], handles := [],
    in_handler := none }

/-- The live message object `h`, if any. -/
def World.handle (w : World) (h : Nat) : Option message :=
  (w.handles[h]?).join

/-- Whether `base_ = b` points to a wrapper that has not been deleted. -/
def World.allocated (w : World) (b : Nat) : Bool :=
  w.heap[b]? == some true

/-- The call `p.lock()` on the weak pointer of a wrapper. -/
def World.lock (w : World) : Option ws_session :=
  if w.expired then none else some w.session

/-- The method `wrapper::do_write`. -/
def wrapper.do_write (w : World) : Option World :=
  match w.lock with
  | some w_p => (w_p.do_write).map fun s => { w with session := s }
  | none => some w

/-- The method `wrapper::do_read`. -/
def wrapper.do_read (w : World) : Option World :=
  match w.lock with
  | some w_p => (w_p.do_read).map fun s => { w with session := s }
  | none => some w

/-- The move constructor `message(message && other)`: the new object gets the
next free identity.  (`exec` admits the call only for a live `other`.) -/
def message.move (w : World) (h : Nat) : World :=
  match w.handle h with
  | some other =>
    let fresh : message :=
      { base_ := other.base_, buffer_read := other.buffer_read,
        is_owning := other.is_owning, is_sent := other.is_sent }
    { w with handles := w.handles.set h (some { other with is_owning := false }) ++ [some fresh] }
  | none => w

/-- Writing `bytes` to `data_out()`.  The stream `os` points into the session's
`output_buffer`: the write is undefined once the session has been destroyed. -/
def message.data_out (w : World) (h : Nat) (bytes : List Nat) : Option World :=
  match w.handle h with
  | some _ =>
    if w.expired then none
    else some { w with
                  session :=
                    { w.session with output_buffer := w.session.output_buffer ++ bytes } }
  | none => none

/-- The method `message::send`: `base_->do_write()`, with no test of `base_`.
The call is undefined when the wrapper has been deleted (by the destructor of
the owning object). -/
def message.send (w : World) (h : Nat) : Option World :=
  match w.handle h with
  | some m => if w.allocated m.base_ then wrapper.do_write w else none
  | none => none

/-- The destructor `message::~message`.  Only the owning object deletes the
wrapper, so the wrapper is alive when the destructor of an owning object calls
`base_->do_read()` (see `run_ownership`). -/
def message.destroy (w : World) (h : Nat) : Option World :=
  match w.handle h with
  | some m =>
    let r : Option World :=
      if m.is_sent = false ∧ m.is_owning = true then wrapper.do_read w else some w
    r.map fun w1 =>
      let w2 : World := if m.is_owning then { w1 with heap := w1.heap.set m.base_ false } else w1
      { w2 with handles := w2.handles.set h none }
  | none => none

/-- The method `ws_session::on_read` up to and including the call of
`message_handler`: on success the temporary `message` is constructed and the
dispatcher is entered. -/
def ws_session.on_read (w : World) (ec : error_code) : World :=
  let s1 : ws_session := { w.session with state_ := state.reading_completed }
  if ec = error_code.closed then { w with session := s1 }
  else if ec ≠ error_code.success then { w with session := s1.fail failure_site.read }
  else
    let m : message :=
      { base_ := w.heap.length, is_owning := true, is_sent := false,
        buffer_read := s1.input_buffer }
    { w with session := { s1 with trace := s1.trace ++ [effect.message_handler m.data] },
             heap := w.heap ++ [true],
             handles := w.handles ++ [some m],
             in_handler := some w.handles.length }

/-- The end of a completion handler: its bound `shared_ptr` is dropped, and the
session is destroyed when no other operation is outstanding. -/
def World.release (w : World) : World :=
  if w.session.ws_.accepts + w.session.ws_.reads + w.session.ws_.writes = 0 then
    { w with expired := true }
  else w

/-- What application code does with a message object. -/
inductive op where
  | data_out (h : Nat) (bytes : List Nat)
  | send (h : Nat)
  | move (h : Nat)
  | destroy (h : Nat)
  deriving DecidableEq, Repr

/-- Executing one application operation. -/
def exec (w : World) : op → Option World
  | op.data_out h bytes => message.data_out w h bytes
  | op.send h => message.send w h
  | op.move h => if (w.handle h).isSome then some (message.move w h) else none
  | op.destroy h => message.destroy w h

/-- The events of one connection: the three completions, an operation of the
application on a message object, and the return of the dispatcher. -/
inductive event where
  | on_accept (ec : error_code)
  | on_read (ec : error_code) (delivered : List Nat)
  | on_write (ec : error_code)
  | app (o : op)
  | handler_return
  deriving DecidableEq, Repr

/-- One event.  A completion is delivered only for an outstanding operation and
only while no handler is running, and the dispatcher returns only when it is
running; an event that cannot occur leaves the world unchanged.  `none` means
undefined behaviour: the session started a second read or a second write, or
the application used a dangling object. -/
def step (w : World) : event → Option World
  | event.on_accept ec =>
    if w.in_handler = none ∧ w.expired = false ∧ 0 < w.session.ws_.accepts then
      (({ w.session with
            ws_ := { w.session.ws_ with accepts := w.session.ws_.accepts - 1 } }).on_accept ec).map
        fun s => World.release { w with session := s }
    else some w
  | event.on_read ec delivered =>
    if w.in_handler = none ∧ w.expired = false ∧ 0 < w.session.ws_.reads then
      let s : ws_session :=
        { w.session with
            ws_ := { w.session.ws_ with reads := w.session.ws_.reads - 1 },
            input_buffer := w.session.input_buffer ++ delivered }
      let w1 := ws_session.on_read { w with session := s } ec
      some (if ec = error_code.success then w1 else w1.release)
    else some w
  | event.on_write ec =>
    if w.in_handler = none ∧ w.expired = false ∧ 0 < w.session.ws_.writes then
      (({ w.session with
            ws_ := { w.session.ws_ with writes := w.session.ws_.writes - 1 } }).on_write ec).map
        fun s => World.release { w with session := s }
    else some w
  | event.app o => exec w o
  | event.handler_return =>
    match w.in_handler with
    | some h => (message.destroy w h).map fun w1 => World.release { w1 with in_handler := none }
    | none => some w

/-- A sequence of events from a given world. -/
def run_from (w : World) : List event → Option World
  | [] => some w
  | ev :: evs => (step w ev).bind fun w1 => run_from w1 evs

/-- A sequence of events from a fresh session. -/
def run (evs : List event) : Option World := run_from World.init evs

/-! ## Invariants and example worlds -/

/-- The session respects the stream: at most one read and one write are
outstanding, and the input buffer is empty while a read is outstanding. -/
def ws_session.ok (s : ws_session) : Prop :=
  s.ws_.reads ≤ 1 ∧ s.ws_.writes ≤ 1 ∧ (s.ws_.reads = 1 → s.input_buffer = [])

/-- Well-formed worlds: the session is `ok`, and a destroyed session has no
operation outstanding. -/
def World.wf (w : World) : Prop :=
  w.session.ok ∧
  (w.expired = true →
    w.session.ws_.accepts = 0 ∧ w.session.ws_.reads = 0 ∧ w.session.ws_.writes = 0)

/-- The operation of the application has defined behaviour: the object is alive,
`send()` goes through a wrapper that has not been deleted, `data_out()` writes
into a session that still exists, and the application does not destroy the
argument object of the running dispatcher call, which belongs to the caller. -/
def op_defined (w : World) : op → Bool
  | op.data_out h _ => (w.handle h).isSome && !w.expired
  | op.send h =>
    match w.handle h with
    | some m => w.allocated m.base_
    | none => false
  | op.move h => (w.handle h).isSome
  | op.destroy h => (w.handle h).isSome && !(w.in_handler == some h)

/-- The event has defined behaviour on the side of the application. -/
def event_defined (w : World) : event → Bool
  | event.app o => op_defined w o
  | _ => true

/-- Every operation of the application along the run has defined behaviour. -/
def ops_defined : World → List event → Bool
  | _, [] => true
  | w, ev :: evs =>
    event_defined w ev &&
    (match step w ev with
      | some w1 => ops_defined w1 evs
      | none => true)

/-- The wrappers (frames) through which `send()` has been called, once event
`ev` has happened in world `w`. -/
def sent_after (sent : List Nat) (w : World) : event → List Nat
  | event.app (op.send h) =>
    match w.handle h with
    | some m => m.base_ :: sent
    | none => sent
  | _ => sent

/-- `send()` is called at most once for each frame: not through a wrapper
through which it has been called before. -/
def sends_once (sent : List Nat) (w : World) : event → Bool
  | event.app (op.send h) =>
    match w.handle h with
    | some m => decide (m.base_ ∉ sent)
    | none => true
  | _ => true

/-- The owning handle of a frame for which `send()` has been called is destroyed
by the application only where the `do_read` of its destructor returns at once:
the session is gone, or its state is `writing` or `reading`.  (Elsewhere the
destructor, whose test of `is_sent` never fails, starts a read.) -/
def finalizes_once (sent : List Nat) (w : World) : event → Bool
  | event.app (op.destroy h) =>
    match w.handle h with
    | some m =>
      !(m.is_owning && decide (m.base_ ∈ sent)) || w.expired ||
        decide (w.session.state_ = state.writing) ||
        decide (w.session.state_ = state.reading)
    | none => true
  | _ => true

/-- A disciplined application: every operation has defined behaviour, `send()`
is called at most once for each frame, and the owning handle of a frame for
which `send()` has been called is not destroyed where its destructor would
start a read.  Handles may be moved and kept for any length of time.  `sent` lists the frames for which
`send()` has been called so far.  Nothing is required of a run from the point
where it has no successor. -/
def disciplined : List Nat → World → List event → Bool
  | _, _, [] => true
  | sent, w, ev :: evs =>
    event_defined w ev && sends_once sent w ev && finalizes_once sent w ev &&
    (match step w ev with
      | some w1 => disciplined (sent_after sent w ev) w1 evs
      | none => true)

/-- The frames for which `send()` has been called in the course of a run. -/
def sent_in : List Nat → World → List event → List Nat
  | sent, _, [] => sent
  | sent, w, ev :: evs =>
    match step w ev with
    | some w1 => sent_in (sent_after sent w ev) w1 evs
    | none => sent

/-- Ownership of wrappers: each wrapper has at most one owning object, it is
allocated exactly as long as its owner is alive, and `is_sent` is never set. -/
structure Ownership (w : World) : Prop where
  uniq : ∀ i j mi mj, w.handle i = some mi → w.handle j = some mj →
    mi.is_owning = true → mj.is_owning = true → mi.base_ = mj.base_ → i = j
  owner_alloc : ∀ i m, w.handle i = some m → m.is_owning = true →
    w.allocated m.base_ = true
  alloc_owner : ∀ b, w.allocated b = true →
    ∃ i m, w.handle i = some m ∧ m.is_owning = true ∧ m.base_ = b
  unsent_flag : ∀ i m, w.handle i = some m → m.is_sent = false

/-- The invariant of disciplined runs.  A session that exists is in one of
four phases (handshake, reading, writing, dispatching) with the matching
operation outstanding, and an owning handle of a frame for which `send()` has
not been called exists only while that frame is being dispatched. -/
structure Good (sent : List Nat) (w : World) : Prop where
  own : Ownership w
  sent_lt : ∀ b, b ∈ sent → b < w.heap.length
  arg_alive : ∀ n, w.in_handler = some n → ∃ m, w.handle n = some m
  expired_idle : w.expired = true →
    w.in_handler = none ∧ w.session.ws_.accepts = 0 ∧ w.session.ws_.reads = 0 ∧
    w.session.ws_.writes = 0
  phase : w.expired = false →
    (w.session.state_ = state.none ∧ w.session.ws_.accepts = 1 ∧
        w.session.ws_.reads = 0 ∧ w.session.ws_.writes = 0 ∧ w.in_handler = none) ∨
    (w.session.state_ = state.reading ∧ w.session.ws_.accepts = 0 ∧
        w.session.ws_.reads = 1 ∧ w.session.ws_.writes = 0) ∨
    (w.session.state_ = state.writing ∧ w.session.ws_.accepts = 0 ∧
        w.session.ws_.reads = 0 ∧ w.session.ws_.writes = 1) ∨
    (w.session.state_ = state.reading_completed ∧ w.session.ws_.accepts = 0 ∧
        w.session.ws_.reads = 0 ∧ w.session.ws_.writes = 0 ∧
        ∃ n mn, w.in_handler = some n ∧ w.handle n = some mn ∧ mn.base_ ∉ sent)
  unsent : w.expired = false → ∀ i m, w.handle i = some m → m.is_owning = true →
    m.base_ ∉ sent →
    w.session.state_ = state.reading_completed ∧
    m.buffer_read = w.session.input_buffer ∧
    ∃ n mn, w.in_handler = some n ∧ w.handle n = some mn ∧ mn.base_ = m.base_

/-- A session that has been destroyed with nothing outstanding and no handler
running. -/
def World.quiescent (w : World) : Prop :=
  w.expired = true ∧ w.in_handler = none ∧ w.session.ws_.accepts = 0 ∧
  w.session.ws_.reads = 0 ∧ w.session.ws_.writes = 0

/-- The session after a successful handshake: the first read is outstanding. -/
def example_reading : World :=
  { session :=
      { state_ := state.reading, ws_ := { accepts := 0, reads := 1, writes := 0 },
        input_buffer := [], output_buffer := [], trace := [effect.async_read] },
    expired := false, heap := [], handles := [], in_handler := none }

/-- The dispatcher has just been entered for the frame `[1, 2]`. -/
def example_dispatching : World :=
  { session :=
      { state_ := state.reading_completed, ws_ := { accepts := 0, reads := 0, writes := 0 },
        input_buffer := [1, 2], output_buffer := [],
        trace := [effect.async_read, effect.message_handler [1, 2]] },
    expired := false, heap := [true],
    handles := [some { base_ := 0, is_owning := true, is_sent := false, buffer_read := [1, 2] }],
    in_handler := some 0 }

/-- The dispatcher has called `send()` on the handle of the frame `[1, 2]`. -/
def example_writing : World :=
  { session :=
      { state_ := state.writing, ws_ := { accepts := 0, reads := 0, writes := 1 },
        input_buffer := [1, 2], output_buffer := [],
        trace := [effect.async_read, effect.message_handler [1, 2], effect.async_write []] },
    expired := false, heap := [true],
    handles := [some { base_ := 0, is_owning := true, is_sent := false, buffer_read := [1, 2] }],
    in_handler := some 0 }

/-- The dispatcher has called `send()` for the frame `[1, 2]` and returned: the
write is outstanding and no handler is running. -/
def example_sent_idle : World :=
  { session :=
      { state_ := state.writing, ws_ := { accepts := 0, reads := 0, writes := 1 },
        input_buffer := [1, 2], output_buffer := [],
        trace := [effect.async_read, effect.message_handler [1, 2], effect.async_write []] },
    expired := false, heap := [false], handles := [none], in_handler := none }

/-- The dispatcher has been entered for the frame `[1, 2]` and has moved its
argument into object 1. -/
def example_in_dispatch : List event :=
  [event.on_accept error_code.success,
   event.on_read error_code.success [1, 2],
   event.app (op.move 0)]

/-- Frame `ping` answered with `pong`, frame `noop` skipped, then the peer
closes: the parameter of the dispatcher is object 1, moved from the argument. -/
def example_session : List event :=
  [event.on_accept error_code.success,
   event.on_read error_code.success [112, 105, 110, 103],
   event.app (op.move 0),
   event.app (op.data_out 1 [112, 111, 110, 103]),
   event.app (op.send 1),
   event.app (op.destroy 1),
   event.handler_return,
   event.on_write error_code.success,
   event.on_read error_code.success [110, 111, 111, 112],
   event.handler_return,
   event.on_read error_code.closed []]

/-- The dispatcher keeps the handle of frame `[1]` (object 1) after calling
`send()` on it; the write completes and the next read is outstanding. -/
def example_kept_after_send : List event :=
  [event.on_accept error_code.success,
   event.on_read error_code.success [1],
   event.app (op.move 0),
   event.app (op.send 1),
   event.handler_return,
   event.on_write error_code.success]

/-- The dispatcher of frame `[1]` keeps the handle (object 1) after calling
`send()` on it and destroys it while the read of the next frame is outstanding;
frame `[2]` is skipped. -/
def example_retained : List event :=
  example_kept_after_send ++
    [event.app (op.destroy 1),
     event.on_read error_code.success [2],
     event.handler_return]

/-- The dispatcher of frame `[1, 2]` keeps the handle (object 1) and returns
without calling `send()`: nothing is outstanding and the session is destroyed,
and a completion delivered later finds no session. -/
def example_retained_unsent : List event :=
  [event.on_accept error_code.success,
   event.on_read error_code.success [1, 2],
   event.app (op.move 0),
   event.handler_return,
   event.on_read error_code.success [3]]

/-- The world after `example_kept_after_send`: the read of the next frame is
outstanding and the application still holds object 1, the handle of frame `[1]`,
on which `send()` has been called. -/
def example_kept_idle : World :=
  { session :=
      { state_ := state.reading, ws_ := { accepts := 0, reads := 1, writes := 0 },
        input_buffer := [], output_buffer := [],
        trace :=
          [effect.async_read, effect.message_handler [1], effect.async_write [],
           effect.async_read] },
    expired := false, heap := [true],
    handles :=
      [none, some { base_ := 0, is_owning := true, is_sent := false, buffer_read := [1] }],
    in_handler := none }

theorem handle_lt {w : World} {h : Nat} {m : message} (hm : w.handle h = some m) :
    h < w.handles.length := by
  unfold World.handle at hm
  by_contra hlt
  rw [List.getElem?_eq_none (by omega)] at hm
  simp at hm

theorem lookup_set_self {l : List (Option message)} {h : Nat} (x : Option message)
    (hlt : h < l.length) : ((l.set h x)[h]?).join = x := by
  simp [hlt]

theorem lookup_set_ne {l : List (Option message)} {h i : Nat} (x : Option message)
    (hne : h ≠ i) : ((l.set h x)[i]?).join = (l[i]?).join := by
  simp [hne]

theorem lookup_append_lt {l : List (Option message)} {i : Nat} (x : Option message)
    (hlt : i < l.length) : ((l ++ [x])[i]?).join = (l[i]?).join := by
  rw [List.getElem?_append_left hlt]

theorem lookup_append_length (l : List (Option message)) (x : Option message) :
    ((l ++ [x])[l.length]?).join = x := by
  simp

theorem lookup_append_gt {l : List (Option message)} {i : Nat} (x : Option message)
    (hlt : l.length < i) : ((l ++ [x])[i]?).join = none := by
  rw [List.getElem?_eq_none (by simp; omega)]
  rfl

theorem handle_none_of_le {w : World} {i : Nat} (h : w.handles.length ≤ i) :
    w.handle i = none := by
  unfold World.handle
  rw [List.getElem?_eq_none h]
  rfl

theorem lookup_set_none (l : List (Option message)) (h i : Nat) :
    ((l.set h none)[i]?).join = if i = h then none else (l[i]?).join := by
  by_cases h1 : i = h
  · subst h1
    rw [if_pos rfl]
    by_cases h2 : i < l.length
    · rw [lookup_set_self _ h2]
    · rw [List.getElem?_eq_none (by simp; omega)]
      rfl
  · rw [if_neg h1, lookup_set_ne _ (fun hx => h1 hx.symm)]

theorem alloc_set_false (l : List Bool) (b c : Nat)
    (h : ((l.set b false)[c]? == some true) = true) : c ≠ b ∧ (l[c]? == some true) = true := by
  by_cases h1 : c = b
  · subst h1
    by_cases h2 : c < l.length
    · simp [h2] at h
    · rw [List.getElem?_eq_none (by simp; omega)] at h
      simp at h
  · refine ⟨h1, ?_⟩
    rw [List.getElem?_set_ne (fun hx => h1 hx.symm)] at h
    exact h

theorem alloc_set_ne (l : List Bool) (b c : Nat) (hne : c ≠ b)
    (h : (l[c]? == some true) = true) : ((l.set b false)[c]? == some true) = true := by
  rw [List.getElem?_set_ne (fun hx => hne hx.symm)]
  exact h

theorem alloc_set_self (l : List Bool) (b : Nat) :
    ((l.set b false)[b]? == some true) = false := by
  by_cases h : b < l.length
  · simp [h]
  · rw [List.getElem?_eq_none (by simp; omega)]
    rfl

theorem alloc_append_true (l : List Bool) (b : Nat)
    (h : ((l ++ [true])[b]? == some true) = true) :
    (l[b]? == some true) = true ∨ b = l.length := by
  by_cases h1 : b < l.length
  · left
    rw [List.getElem?_append_left h1] at h
    exact h
  · by_cases h2 : b = l.length
    · exact Or.inr h2
    · rw [List.getElem?_eq_none (by simp; omega)] at h
      simp at h

theorem alloc_lt {l : List Bool} {b : Nat} (h : (l[b]? == some true) = true) :
    b < l.length := by
  by_contra hlt
  rw [List.getElem?_eq_none (by omega)] at h
  simp at h

theorem move_eq {w : World} {h : Nat} {m : message} (hm : w.handle h = some m) :
    message.move w h =
      { w with handles := w.handles.set h (some { m with is_owning := false }) ++ [some m] } := by
  simp [message.move, hm]

theorem move_handle {w : World} {h : Nat} {m : message} (hm : w.handle h = some m) (i : Nat) :
    (message.move w h).handle i =
      if i = w.handles.length then some m
      else if i = h then some { m with is_owning := false } else w.handle i := by
  have hlt := handle_lt hm
  rw [move_eq hm]
  simp only [World.handle]
  by_cases h1 : i = w.handles.length
  · subst h1
    rw [if_pos rfl]
    have := lookup_append_length (w.handles.set h (some { m with is_owning := false })) (some m)
    simpa using this
  · rw [if_neg h1]
    by_cases h2 : i < w.handles.length
    · rw [lookup_append_lt _ (by simpa using h2)]
      by_cases h3 : i = h
      · subst h3
        rw [if_pos rfl, lookup_set_self _ hlt]
      · rw [if_neg h3, lookup_set_ne _ (fun hx => h3 hx.symm)]
    · rw [lookup_append_gt _ (by simp; omega)]
      have h3 : i ≠ h := by omega
      rw [if_neg h3, List.getElem?_eq_none (by omega)]
      rfl

/-! ## The outcomes of the session's methods -/

theorem do_read_cases {s s1 : ws_session} (h : s.do_read = some s1) :
    ((s.state_ = state.writing ∨ s.state_ = state.reading) ∧ s1 = s) ∨
    (¬ (s.state_ = state.writing ∨ s.state_ = state.reading) ∧ s.ws_.reads = 0 ∧
      s1 = { s with state_ := state.reading, input_buffer := [],
                    ws_ := { s.ws_ with reads := 1 },
                    trace := s.trace ++ [effect.async_read] }) := by
  unfold ws_session.do_read stream.async_read at h
  by_cases hg : s.state_ = state.writing ∨ s.state_ = state.reading
  · rw [if_pos hg] at h
    left; exact ⟨hg, (Option.some.inj h).symm⟩
  · rw [if_neg hg] at h
    by_cases hr : s.ws_.reads = 0
    · rw [if_pos hr] at h
      right; exact ⟨hg, hr, (Option.some.inj h).symm⟩
    · rw [if_neg hr] at h
      simp at h

theorem do_write_cases {s s1 : ws_session} (h : s.do_write = some s1) :
    s.ws_.writes = 0 ∧
      s1 = { s with state_ := state.writing, ws_ := { s.ws_ with writes := 1 },
                    trace := s.trace ++ [effect.async_write s.output_buffer] } := by
  unfold ws_session.do_write stream.async_write at h
  by_cases hr : s.ws_.writes = 0
  · rw [if_pos hr] at h
    exact ⟨hr, (Option.some.inj h).symm⟩
  · rw [if_neg hr] at h
    simp at h

/-! ## Well-formedness is preserved by every event -/

theorem do_read_ok {s s1 : ws_session} (h : s.do_read = some s1) (hs : s.ok) : s1.ok := by
  rcases do_read_cases h with ⟨_, rfl⟩ | ⟨_, _, rfl⟩
  · exact hs
  · exact ⟨by simp, hs.2.1, by simp⟩

theorem do_write_ok {s s1 : ws_session} (h : s.do_write = some s1) (hs : s.ok) : s1.ok := by
  obtain ⟨_, rfl⟩ := do_write_cases h
  exact ⟨hs.1, by simp, hs.2.2⟩

theorem wrapper_do_read_cases {w w1 : World} (h : wrapper.do_read w = some w1) :
    (w.expired = true ∧ w1 = w) ∨
    (w.expired = false ∧ ∃ s, w.session.do_read = some s ∧ w1 = { w with session := s }) := by
  unfold wrapper.do_read World.lock at h
  cases he : w.expired
  · right
    simp [he] at h
    obtain ⟨s, hs, rfl⟩ := h
    exact ⟨rfl, s, hs, rfl⟩
  · left
    simp [he] at h
    exact ⟨rfl, h.symm⟩

theorem wrapper_do_write_cases {w w1 : World} (h : wrapper.do_write w = some w1) :
    (w.expired = true ∧ w1 = w) ∨
    (w.expired = false ∧ ∃ s, w.session.do_write = some s ∧ w1 = { w with session := s }) := by
  unfold wrapper.do_write World.lock at h
  cases he : w.expired
  · right
    simp [he] at h
    obtain ⟨s, hs, rfl⟩ := h
    exact ⟨rfl, s, hs, rfl⟩
  · left
    simp [he] at h
    exact ⟨rfl, h.symm⟩

theorem wrapper_do_read_wf {w w1 : World} (h : wrapper.do_read w = some w1) (hw : w.wf) :
    w1.wf := by
  rcases wrapper_do_read_cases h with ⟨_, rfl⟩ | ⟨he, s, hs, rfl⟩
  · exact hw
  · exact ⟨do_read_ok hs hw.1, fun hx => by simp [he] at hx⟩

theorem wrapper_do_write_wf {w w1 : World} (h : wrapper.do_write w = some w1) (hw : w.wf) :
    w1.wf := by
  rcases wrapper_do_write_cases h with ⟨_, rfl⟩ | ⟨he, s, hs, rfl⟩
  · exact hw
  · exact ⟨do_write_ok hs hw.1, fun hx => by simp [he] at hx⟩

theorem destroy_cases {w w1 : World} {h : Nat} (hd : message.destroy w h = some w1) :
    ∃ m w0, w.handle h = some m ∧
      ((m.is_sent = false ∧ m.is_owning = true ∧ wrapper.do_read w = some w0) ∨
        (¬ (m.is_sent = false ∧ m.is_owning = true) ∧ w0 = w)) ∧
      w1 = { w0 with
              heap := if m.is_owning = true then w0.heap.set m.base_ false else w0.heap,
              handles := w0.handles.set h none } := by
  unfold message.destroy at hd
  cases hm : w.handle h with
  | none => simp [hm] at hd
  | some m =>
    simp only [hm, Option.map_eq_some'] at hd
    obtain ⟨w0, hw0, rfl⟩ := hd
    refine ⟨m, w0, rfl, ?_, ?_⟩
    · by_cases hc : m.is_sent = false ∧ m.is_owning = true
      · rw [if_pos hc] at hw0
        left; exact ⟨hc.1, hc.2, hw0⟩
      · rw [if_neg hc] at hw0
        right; exact ⟨hc, (Option.some.inj hw0).symm⟩
    · cases m.is_owning <;> simp

theorem destroy_wf {w w1 : World} {h : Nat} (hd : message.destroy w h = some w1) (hw : w.wf) :
    w1.wf := by
  obtain ⟨m, w0, _, hc, rfl⟩ := destroy_cases hd
  have h0 : w0.wf := by
    rcases hc with ⟨_, _, hr⟩ | ⟨_, rfl⟩
    · exact wrapper_do_read_wf hr hw
    · exact hw
  exact h0

theorem exec_wf {w w1 : World} {o : op} (h : exec w o = some w1) (hw : w.wf) : w1.wf := by
  cases o with
  | data_out i bytes =>
    simp only [exec, message.data_out] at h
    cases hm : w.handle i with
    | none => simp [hm] at h
    | some m =>
      cases he : w.expired with
      | true => simp [hm, he] at h
      | false =>
        simp [hm, he] at h; subst h
        exact ⟨hw.1, fun hx => by simp [he] at hx⟩
  | send i =>
    simp only [exec, message.send] at h
    cases hm : w.handle i with
    | none => simp [hm] at h
    | some m =>
      by_cases ha : w.allocated m.base_ = true
      · simp [hm, ha] at h; exact wrapper_do_write_wf h hw
      · simp [hm, ha] at h
  | move i =>
    simp only [exec, message.move] at h
    cases hm : w.handle i with
    | none => simp [hm] at h
    | some m => simp [hm] at h; subst h; exact hw
  | destroy i => exact destroy_wf h hw

theorem release_wf {w : World} (hw : w.wf) : w.release.wf := by
  unfold World.release
  split
  · rename_i hz
    refine ⟨hw.1, fun _ => ?_⟩
    simp at hz ⊢
    omega
  · exact hw

theorem on_accept_cases {s s1 : ws_session} {ec : error_code} (h : s.on_accept ec = some s1) :
    (ec ≠ error_code.success ∧ s1 = s.fail failure_site.accept) ∨
    (ec = error_code.success ∧ s.do_read = some s1) := by
  unfold ws_session.on_accept at h
  by_cases hc : ec = error_code.success
  · right; simp [hc] at h; exact ⟨hc, h⟩
  · left; simp [hc] at h; exact ⟨hc, h.symm⟩

theorem on_write_cases {s s1 : ws_session} {ec : error_code} (h : s.on_write ec = some s1) :
    (ec ≠ error_code.success ∧
      s1 = ws_session.fail { s with state_ := state.writing_completed } failure_site.write) ∨
    (ec = error_code.success ∧
      ws_session.do_read { s with state_ := state.writing_completed, output_buffer := [] }
        = some s1) := by
  unfold ws_session.on_write at h
  by_cases hc : ec = error_code.success
  · right; simp [hc] at h; exact ⟨hc, h⟩
  · left; simp [hc] at h; exact ⟨hc, h.symm⟩

theorem step_wf {w w1 : World} {ev : event} (h : step w ev = some w1) (hw : w.wf) : w1.wf := by
  cases ev with
  | on_accept ec =>
    simp only [step] at h
    split at h
    · rename_i hg
      simp only [Option.map_eq_some'] at h
      obtain ⟨s, hs, rfl⟩ := h
      apply release_wf
      have hbase : ws_session.ok { w.session with
          ws_ := { w.session.ws_ with accepts := w.session.ws_.accepts - 1 } } := hw.1
      rcases on_accept_cases hs with ⟨_, rfl⟩ | ⟨_, hr⟩
      · exact ⟨hbase, fun hx => by simp [hg.2.1] at hx⟩
      · exact ⟨do_read_ok hr hbase, fun hx => by simp [hg.2.1] at hx⟩
    · simp at h; subst h; exact hw
  | on_read ec delivered =>
    simp only [step] at h
    split at h
    · rename_i hg
      obtain ⟨hidle, hexp, hpos⟩ := hg
      have hr1 : w.session.ws_.reads = 1 := by have := hw.1.1; omega
      simp only [Option.some.injEq] at h
      subst h
      cases ec with
      | success =>
        simp only [ws_session.on_read]
        refine ⟨⟨by simp [hr1], hw.1.2.1, by simp [hr1]⟩, fun hx => by simp [hexp] at hx⟩
      | closed =>
        simp only [ws_session.on_read]
        apply release_wf
        exact ⟨⟨by simp [hr1], hw.1.2.1, by simp [hr1]⟩, fun hx => by simp [hexp] at hx⟩
      | failure =>
        simp only [ws_session.on_read]
        apply release_wf
        exact ⟨⟨by simp [hr1, ws_session.fail], hw.1.2.1, by simp [hr1, ws_session.fail]⟩,
          fun hx => by simp [hexp] at hx⟩
    · simp at h; subst h; exact hw
  | on_write ec =>
    simp only [step] at h
    split at h
    · rename_i hg
      obtain ⟨hidle, hexp, hpos⟩ := hg
      have hw1 : w.session.ws_.writes = 1 := by have := hw.1.2.1; omega
      simp only [Option.map_eq_some'] at h
      obtain ⟨s, hs, rfl⟩ := h
      apply release_wf
      rcases on_write_cases hs with ⟨_, rfl⟩ | ⟨_, hr⟩
      · exact ⟨⟨hw.1.1, by simp [ws_session.fail, hw1], hw.1.2.2⟩, fun hx => by simp [hexp] at hx⟩
      · refine ⟨do_read_ok hr ⟨hw.1.1, by simp [hw1], hw.1.2.2⟩, fun hx => by simp [hexp] at hx⟩
    · simp at h; subst h; exact hw
  | app o => exact exec_wf h hw
  | handler_return =>
    simp only [step] at h
    split at h
    · simp only [Option.map_eq_some'] at h
      obtain ⟨w0, hd, rfl⟩ := h
      apply release_wf
      have h0 : w0.wf := destroy_wf hd hw
      exact h0
    · simp at h; subst h; exact hw

theorem init_wf : World.init.wf := by
  refine ⟨⟨by decide, by decide, fun _ => rfl⟩, fun h => ?_⟩
  simp [World.init] at h

theorem run_from_wf {evs : List event} {w w1 : World} (h : run_from w evs = some w1)
    (hw : w.wf) : w1.wf := by
  induction evs generalizing w with
  | nil => simp [run_from] at h; subst h; exact hw
  | cons ev evs ih =>
    simp only [run_from, Option.bind_eq_some] at h
    obtain ⟨w0, hs, hr⟩ := h
    exact ih hr (step_wf hs hw)

theorem run_wf {evs : List event} {w : World} (h : run evs = some w) : w.wf :=
  run_from_wf h init_wf

/-! ## One frame, from read completion to the next read -/

theorem wf_read_pending {w : World} (hw : w.wf) (hread : 0 < w.session.ws_.reads) :
    w.expired = false ∧ w.session.ws_.reads = 1 ∧ w.session.input_buffer = [] := by
  have h1 : w.session.ws_.reads = 1 := by have := hw.1.1; omega
  refine ⟨?_, h1, hw.1.2.2 h1⟩
  cases he : w.expired with
  | false => rfl
  | true => have := (hw.2 he).2.1; omega

/-- The world in which the dispatcher has just been entered for a frame. -/
theorem step_on_read_success (w : World) (delivered : List Nat)
    (hidle : w.in_handler = none) (hexp : w.expired = false)
    (hr1 : w.session.ws_.reads = 1) (hbuf : w.session.input_buffer = []) :
    step w (event.on_read error_code.success delivered) = some
      { session := { state_ := state.reading_completed,
                     ws_ := { w.session.ws_ with reads := 0 },
                     input_buffer := delivered,
                     output_buffer := w.session.output_buffer,
                     trace := w.session.trace ++ [effect.message_handler delivered] },
        expired := false,
        heap := w.heap ++ [true],
        handles := w.handles ++
          [some { base_ := w.heap.length, is_owning := true, is_sent := false,
                  buffer_read := delivered }],
        in_handler := some w.handles.length } := by
  simp [step, hidle, hexp, hr1, hbuf, ws_session.on_read, message.data]

/-- C10: round trip.  In every state reached by any sequence of events (any
frames, any behaviour of the application), when a read completes successfully
the dispatcher is invoked with exactly the bytes the transport delivered for
that read, and `data()` of the handle constructed for the frame returns exactly
those bytes: nothing is left over from an earlier frame. -/
theorem data_is_delivered_frame (evs : List event) (w : World) (delivered : List Nat)
    (hrun : run evs = some w) (hidle : w.in_handler = none)
    (hread : 0 < w.session.ws_.reads) :
    ∃ w1 m, step w (event.on_read error_code.success delivered) = some w1 ∧
      w1.session.trace = w.session.trace ++ [effect.message_handler delivered] ∧
      w1.in_handler = some w.handles.length ∧
      w1.handle w.handles.length = some m ∧ m.data = delivered := by
  obtain ⟨hexp, hr1, hbuf⟩ := wf_read_pending (run_wf hrun) hread
  refine ⟨_, { base_ := w.heap.length, is_owning := true, is_sent := false,
               buffer_read := delivered },
    step_on_read_success w delivered hidle hexp hr1 hbuf, rfl, rfl, ?_, rfl⟩
  simp [World.handle]

theorem data_is_delivered_frame_witness :
    (run [event.on_accept error_code.success] = some example_reading ∧
      example_reading.in_handler = none ∧ 0 < example_reading.session.ws_.reads) ∧
    ∃ w1 m, step example_reading (event.on_read error_code.success [112, 105, 110, 103])
        = some w1 ∧
      w1.session.trace = example_reading.session.trace ++
        [effect.message_handler [112, 105, 110, 103]] ∧
      w1.in_handler = some example_reading.handles.length ∧
      w1.handle example_reading.handles.length = some m ∧
      m.data = [112, 105, 110, 103] :=
  ⟨⟨rfl, rfl, by decide⟩,
    data_is_delivered_frame [event.on_accept error_code.success] example_reading
      [112, 105, 110, 103] rfl rfl (by decide)⟩

theorem getElem_append_pair {α : Type} (l : List α) (x y : α)
    (h : l.length + 1 < (l ++ [x, y]).length) : (l ++ [x, y])[l.length + 1] = y := by
  rw [List.getElem_append_right (by omega)]
  simp

theorem getElem_append_cons_length {α : Type} (l : List α) (x : α) (t : List α)
    (h : l.length < (l ++ x :: t).length) : (l ++ x :: t)[l.length] = x := by
  rw [List.getElem_append_right (by omega)]
  simp

/-- C5: skip responding, resume listening.  For every frame read successfully in
a reachable state, if the dispatcher writes nothing and returns without calling
`send()`, the handle dies with the call and the session issues no write and
exactly one new read, ending in state `reading`.  This holds both when the
dispatcher works on the argument object itself and when its by-value parameter
is move-constructed from the argument and destroyed on return. -/
theorem skip_resumes_reading (evs : List event) (w : World) (delivered : List Nat)
    (hrun : run evs = some w) (hidle : w.in_handler = none)
    (hread : 0 < w.session.ws_.reads) :
    (∃ w1, run_from w [event.on_read error_code.success delivered, event.handler_return]
        = some w1 ∧
      w1.session.trace = w.session.trace ++
        [effect.message_handler delivered, effect.async_read] ∧
      w1.session.state_ = state.reading ∧ w1.session.ws_.reads = 1 ∧
      w1.session.ws_.writes = w.session.ws_.writes ∧ w1.in_handler = none ∧
      w1.expired = false) ∧
    (∃ w1, run_from w [event.on_read error_code.success delivered,
        event.app (op.move w.handles.length),
        event.app (op.destroy (w.handles.length + 1)), event.handler_return] = some w1 ∧
      w1.session.trace = w.session.trace ++
        [effect.message_handler delivered, effect.async_read] ∧
      w1.session.state_ = state.reading ∧ w1.session.ws_.reads = 1 ∧
      w1.session.ws_.writes = w.session.ws_.writes ∧ w1.in_handler = none ∧
      w1.expired = false) := by
  obtain ⟨hexp, hr1, hbuf⟩ := wf_read_pending (run_wf hrun) hread
  clear hrun hread
  obtain ⟨⟨st, ⟨a, r, wr⟩, ib, ob, tr⟩, ex, hp, hs, ih⟩ := w
  simp only at hidle hexp hr1 hbuf
  subst hidle hexp hr1 hbuf
  constructor
  · simp [run_from, step, ws_session.on_read, message.data,
      message.destroy, World.handle, World.allocated, wrapper.do_read, World.lock,
      ws_session.do_read, stream.async_read, World.release]
  · simp [run_from, step, ws_session.on_read, message.data, exec, getElem_append_pair,
      getElem_append_cons_length,
      message.move, message.destroy, World.handle, World.allocated, wrapper.do_read,
      World.lock, ws_session.do_read, stream.async_read, World.release]

theorem skip_resumes_reading_witness :
    (run [event.on_accept error_code.success] = some example_reading ∧
      example_reading.in_handler = none ∧ 0 < example_reading.session.ws_.reads) ∧
    ∃ w1, run_from example_reading
        [event.on_read error_code.success [110, 111, 111, 112], event.handler_return]
        = some w1 ∧
      w1.session.trace = example_reading.session.trace ++
        [effect.message_handler [110, 111, 111, 112], effect.async_read] ∧
      w1.session.state_ = state.reading ∧ w1.session.ws_.reads = 1 ∧
      w1.session.ws_.writes = example_reading.session.ws_.writes ∧ w1.in_handler = none ∧
      w1.expired = false :=
  ⟨⟨rfl, rfl, by decide⟩,
    (skip_resumes_reading [event.on_accept error_code.success] example_reading
      [110, 111, 111, 112] rfl rfl (by decide)).1⟩

/-- C4 (as stated, refuted): after a frame whose dispatcher wrote the byte `97`
and did not call `send()`, the dispatcher of the next frame writes `pong` and
calls `send()` once; the write that is issued carries `97` followed by `pong`,
not exactly the four bytes written for this frame. -/
theorem write_carries_leftover_output :
    ∃ w, run [event.on_accept error_code.success,
        event.on_read error_code.success [110, 111, 111, 112],
        event.app (op.data_out 0 [97]),
        event.handler_return,
        event.on_read error_code.success [112, 105, 110, 103],
        event.app (op.data_out 1 [112, 111, 110, 103]),
        event.app (op.send 1),
        event.handler_return] = some w ∧
      w.session.trace =
        [effect.async_read,
         effect.message_handler [110, 111, 111, 112],
         effect.async_read,
         effect.message_handler [112, 105, 110, 103],
         effect.async_write [97, 112, 111, 110, 103]] :=
  ⟨_, rfl, rfl⟩

/-- C4 (amended): for every frame read successfully in a reachable state in which
no write is outstanding, if the dispatcher writes `bytes` to `data_out()` and
calls `send()` once, exactly one write is issued; it carries the bytes already
accumulated in the output buffer followed by `bytes` (so exactly `bytes` when the
output buffer was empty), and when that write completes successfully the output
buffer is emptied and exactly one new read is issued. -/
theorem send_writes_accumulated_output (evs : List event) (w : World)
    (delivered bytes : List Nat)
    (hrun : run evs = some w) (hidle : w.in_handler = none)
    (hread : 0 < w.session.ws_.reads) (hnow : w.session.ws_.writes = 0) :
    ∃ w1 w2,
      run_from w [event.on_read error_code.success delivered,
        event.app (op.data_out w.handles.length bytes),
        event.app (op.send w.handles.length), event.handler_return] = some w1 ∧
      w1.session.trace = w.session.trace ++
        [effect.message_handler delivered,
         effect.async_write (w.session.output_buffer ++ bytes)] ∧
      w1.session.state_ = state.writing ∧
      w1.session.ws_.reads = 0 ∧ w1.session.ws_.writes = 1 ∧
      step w1 (event.on_write error_code.success) = some w2 ∧
      w2.session.trace = w1.session.trace ++ [effect.async_read] ∧
      w2.session.state_ = state.reading ∧
      w2.session.ws_.reads = 1 ∧ w2.session.ws_.writes = 0 ∧
      w2.session.output_buffer = [] := by
  obtain ⟨hexp, hr1, hbuf⟩ := wf_read_pending (run_wf hrun) hread
  clear hrun hread
  obtain ⟨⟨st, ⟨a, r, wr⟩, ib, ob, tr⟩, ex, hp, hs, ih⟩ := w
  simp only at hidle hexp hr1 hbuf hnow
  subst hidle hexp hr1 hbuf hnow
  simp [run_from, step, ws_session.on_read, message.data, exec, message.data_out, message.send,
    message.destroy, World.handle, World.allocated, wrapper.do_read, wrapper.do_write,
    World.lock, ws_session.do_read, ws_session.do_write, ws_session.on_write,
    stream.async_read, stream.async_write, World.release]

theorem send_writes_accumulated_output_witness :
    (run [event.on_accept error_code.success] = some example_reading ∧
      example_reading.in_handler = none ∧ 0 < example_reading.session.ws_.reads ∧
      example_reading.session.ws_.writes = 0) ∧
    ∃ w1 w2,
      run_from example_reading [event.on_read error_code.success [112, 105, 110, 103],
        event.app (op.data_out example_reading.handles.length [112, 111, 110, 103]),
        event.app (op.send example_reading.handles.length), event.handler_return] = some w1 ∧
      w1.session.trace = example_reading.session.trace ++
        [effect.message_handler [112, 105, 110, 103],
         effect.async_write (example_reading.session.output_buffer ++ [112, 111, 110, 103])] ∧
      w1.session.state_ = state.writing ∧
      w1.session.ws_.reads = 0 ∧ w1.session.ws_.writes = 1 ∧
      step w1 (event.on_write error_code.success) = some w2 ∧
      w2.session.trace = w1.session.trace ++ [effect.async_read] ∧
      w2.session.state_ = state.reading ∧
      w2.session.ws_.reads = 1 ∧ w2.session.ws_.writes = 0 ∧
      w2.session.output_buffer = [] :=
  ⟨⟨rfl, rfl, by decide, rfl⟩,
    send_writes_accumulated_output [event.on_accept error_code.success] example_reading
      [112, 105, 110, 103] [112, 111, 110, 103] rfl rfl (by decide) rfl⟩

/-! ## A destroyed session -/

theorem send_expired (w : World) (h : Nat) (m : message) (hexp : w.expired = true)
    (hm : w.handle h = some m) (ha : w.allocated m.base_ = true) :
    message.send w h = some w := by
  simp [message.send, hm, ha, wrapper.do_write, World.lock, hexp]

theorem destroy_expired (w : World) (h : Nat) (m : message) (hexp : w.expired = true)
    (hm : w.handle h = some m) :
    ∃ w1, message.destroy w h = some w1 ∧ w1.session = w.session ∧
      w1.expired = true ∧ w1.in_handler = w.in_handler := by
  have hr : (if m.is_sent = false ∧ m.is_owning = true then wrapper.do_read w
      else some w) = some w := by
    by_cases hc : m.is_sent = false ∧ m.is_owning = true
    · simp [hc, wrapper.do_read, World.lock, hexp]
    · simp [hc]
  simp only [message.destroy, hm, hr, Option.map_some']
  refine ⟨_, rfl, ?_, ?_, ?_⟩
  · cases m.is_owning <;> rfl
  · cases m.is_owning <;> simp [hexp]
  · cases m.is_owning <;> rfl

/-- C7: after a handle has been move-constructed from handle `h`, `h` no longer
owns and the new handle carries the ownership `h` had; destroying `h` then
changes nothing but the lifetime of `h` itself: the session (state, buffers,
outstanding operations, trace) and the heap of wrappers are untouched and the
new handle is still there. -/
theorem moved_from_destruction_is_noop (w : World) (h : Nat) (m : message)
    (hm : w.handle h = some m) :
    (message.move w h).handle h = some { m with is_owning := false } ∧
    (message.move w h).handle w.handles.length = some m ∧
    (message.move w h).session = w.session ∧ (message.move w h).heap = w.heap ∧
    ∃ w1, step (message.move w h) (event.app (op.destroy h)) = some w1 ∧
      w1.session = w.session ∧ w1.heap = w.heap ∧ w1.expired = w.expired ∧
      w1.in_handler = w.in_handler ∧
      w1.handle h = none ∧ w1.handle w.handles.length = some m := by
  have hlt := handle_lt hm
  have hmv : message.move w h =
      { w with handles := w.handles.set h (some { m with is_owning := false }) ++ [some m] } := by
    simp [message.move, hm]
  have h1 : (message.move w h).handle h = some { m with is_owning := false } := by
    rw [hmv]
    simp only [World.handle]
    rw [lookup_append_lt _ (by simpa using hlt), lookup_set_self _ hlt]
  refine ⟨h1, ?_, by rw [hmv], by rw [hmv], ?_⟩
  · rw [hmv]
    simp only [World.handle]
    have := lookup_append_length (w.handles.set h (some { m with is_owning := false })) (some m)
    simp
  · refine ⟨{ w with handles :=
        (w.handles.set h (some { m with is_owning := false }) ++ [some m]).set h none },
      ?_, rfl, rfl, rfl, rfl, ?_, ?_⟩
    · simp only [step, exec, message.destroy, h1]
      rw [hmv]
      simp
    · simp only [World.handle]
      rw [lookup_set_self _ (by simp; omega)]
    · simp only [World.handle]
      rw [lookup_set_ne _ (by omega)]
      simp

theorem moved_from_destruction_is_noop_witness :
    example_dispatching.handle 0 =
      some { base_ := 0, is_owning := true, is_sent := false, buffer_read := [1, 2] } ∧
    (message.move example_dispatching 0).handle 0 =
      some { base_ := 0, is_owning := false, is_sent := false, buffer_read := [1, 2] } ∧
    ∃ w1, step (message.move example_dispatching 0) (event.app (op.destroy 0)) = some w1 ∧
      w1.session = example_dispatching.session ∧ w1.heap = example_dispatching.heap ∧
      w1.expired = example_dispatching.expired ∧
      w1.in_handler = example_dispatching.in_handler ∧
      w1.handle 0 = none ∧
      w1.handle example_dispatching.handles.length =
        some { base_ := 0, is_owning := true, is_sent := false, buffer_read := [1, 2] } :=
  ⟨rfl,
    (moved_from_destruction_is_noop example_dispatching 0
      { base_ := 0, is_owning := true, is_sent := false, buffer_read := [1, 2] } rfl).1,
    (moved_from_destruction_is_noop example_dispatching 0
      { base_ := 0, is_owning := true, is_sent := false, buffer_read := [1, 2] } rfl).2.2.2.2⟩

/-! ## Error completions -/

theorem op_defined_handle {w : World} {o : op} (hd : op_defined w o = true) :
    ∃ m, w.handle (match o with
      | op.data_out h _ => h
      | op.send h => h
      | op.move h => h
      | op.destroy h => h) = some m := by
  cases o with
  | data_out h bytes =>
    simp only [op_defined, Bool.and_eq_true] at hd
    exact Option.isSome_iff_exists.1 hd.1
  | send h =>
    simp only [op_defined] at hd
    cases hm : w.handle h with
    | none => simp [hm] at hd
    | some m => exact ⟨m, rfl⟩
  | move h =>
    simp only [op_defined] at hd
    exact Option.isSome_iff_exists.1 hd
  | destroy h =>
    simp only [op_defined, Bool.and_eq_true] at hd
    exact Option.isSome_iff_exists.1 hd.1

theorem quiescent_step {w : World} (hq : w.quiescent) (ev : event)
    (hd : event_defined w ev = true) :
    ∃ w1, step w ev = some w1 ∧ w1.session = w.session ∧ w1.quiescent := by
  obtain ⟨hexp, hidle, ha, hr, hw⟩ := hq
  cases ev with
  | on_accept ec => exact ⟨w, by simp [step, hexp], rfl, hexp, hidle, ha, hr, hw⟩
  | on_read ec delivered => exact ⟨w, by simp [step, hexp], rfl, hexp, hidle, ha, hr, hw⟩
  | on_write ec => exact ⟨w, by simp [step, hexp], rfl, hexp, hidle, ha, hr, hw⟩
  | handler_return => exact ⟨w, by simp [step, hidle], rfl, hexp, hidle, ha, hr, hw⟩
  | app o =>
    simp only [event_defined] at hd
    obtain ⟨m, hm⟩ := op_defined_handle hd
    cases o with
    | data_out h bytes =>
      simp [op_defined, hexp] at hd
    | send h =>
      simp only [op_defined, hm] at hd
      exact ⟨w, send_expired w h m hexp hm hd, rfl, hexp, hidle, ha, hr, hw⟩
    | move h =>
      refine ⟨message.move w h, ?_, ?_, ?_⟩
      · simp only at hm
        simp [step, exec, hm]
      · rw [move_eq hm]
      · rw [move_eq hm]
        exact ⟨hexp, hidle, ha, hr, hw⟩
    | destroy h =>
      obtain ⟨w1, h1, h2, h3, h4⟩ := destroy_expired w h m hexp hm
      exact ⟨w1, h1, h2, h3, by rw [h4]; exact hidle, by rw [h2]; exact ⟨ha, hr, hw⟩⟩

theorem quiescent_run {w : World} (hq : w.quiescent) (evs : List event)
    (hd : ops_defined w evs = true) :
    ∃ w1, run_from w evs = some w1 ∧ w1.session = w.session := by
  induction evs generalizing w with
  | nil => exact ⟨w, rfl, rfl⟩
  | cons ev evs ih =>
    simp only [ops_defined, Bool.and_eq_true] at hd
    obtain ⟨w1, h1, h2, h3⟩ := quiescent_step hq ev hd.1
    have hrest := hd.2
    rw [h1] at hrest
    obtain ⟨w2, h4, h5⟩ := ih h3 hrest
    exact ⟨w2, by simp [run_from, h1, h4], by rw [h5, h2]⟩

/-- C9 (as stated, refuted): a read fails while a write is still outstanding
(the kept handle of frame `[1]` was sent a second time).  The failure leaves the
session in state `reading_completed`, alive, and when the write completes the
session issues a further read. -/
theorem read_issued_after_error_completion :
    ∃ w w1, run (example_kept_after_send ++
        [event.app (op.send 1), event.on_read error_code.failure []]) = some w ∧
      w.session.state_ = state.reading_completed ∧ w.expired = false ∧
      w.session.trace =
        [effect.async_read, effect.message_handler [1], effect.async_write [],
         effect.async_read, effect.async_write [], effect.fail failure_site.read] ∧
      step w (event.on_write error_code.success) = some w1 ∧
      w1.session.trace = w.session.trace ++ [effect.async_read] ∧
      w1.session.state_ = state.reading ∧ w1.session.ws_.reads = 1 :=
  ⟨_, _, rfl, rfl, rfl, rfl, rfl, rfl, rfl, rfl⟩

/-- C9 (amended): an error completion (failed handshake, read ended by a close or
by any other error, failed write) does not enter the dispatcher and issues no
read and no write in its handler.  A failed handshake, a failed write and a read
ended by an error other than a close are reported through `fail`; a read ended
by a close is silent.  There is no closed state: `state_` keeps its value after
a failed handshake and becomes `reading_completed` or `writing_completed`
otherwise.  When the failed operation was the only one outstanding the session
is destroyed, and no later event with defined behaviour changes it: no further
read or write is ever issued. -/
theorem error_completion_ends_session (w : World) (ec : error_code) (delivered : List Nat)
    (hec : ec ≠ error_code.success) (hidle : w.in_handler = none)
    (hexp : w.expired = false) :
    (0 < w.session.ws_.accepts →
      ∃ w1, step w (event.on_accept ec) = some w1 ∧
        w1.session.trace = w.session.trace ++ [effect.fail failure_site.accept] ∧
        w1.session.state_ = w.session.state_ ∧ w1.in_handler = none ∧
        (w.session.ws_.accepts + w.session.ws_.reads + w.session.ws_.writes = 1 →
          w1.expired = true ∧
          ∀ evs, ops_defined w1 evs = true →
            ∃ w2, run_from w1 evs = some w2 ∧ w2.session = w1.session)) ∧
    (0 < w.session.ws_.reads →
      ∃ w1, step w (event.on_read ec delivered) = some w1 ∧
        (ec = error_code.closed → w1.session.trace = w.session.trace) ∧
        (ec ≠ error_code.closed →
          w1.session.trace = w.session.trace ++ [effect.fail failure_site.read]) ∧
        w1.session.state_ = state.reading_completed ∧ w1.in_handler = none ∧
        (w.session.ws_.accepts + w.session.ws_.reads + w.session.ws_.writes = 1 →
          w1.expired = true ∧
          ∀ evs, ops_defined w1 evs = true →
            ∃ w2, run_from w1 evs = some w2 ∧ w2.session = w1.session)) ∧
    (0 < w.session.ws_.writes →
      ∃ w1, step w (event.on_write ec) = some w1 ∧
        w1.session.trace = w.session.trace ++ [effect.fail failure_site.write] ∧
        w1.session.state_ = state.writing_completed ∧ w1.in_handler = none ∧
        (w.session.ws_.accepts + w.session.ws_.reads + w.session.ws_.writes = 1 →
          w1.expired = true ∧
          ∀ evs, ops_defined w1 evs = true →
            ∃ w2, run_from w1 evs = some w2 ∧ w2.session = w1.session)) := by
  refine ⟨fun hpos => ?_, fun hpos => ?_, fun hpos => ?_⟩
  · refine ⟨World.release
        { w with
            session := ws_session.fail
              { w.session with
                  ws_ := { w.session.ws_ with accepts := w.session.ws_.accepts - 1 } }
              failure_site.accept }, ?_, ?_, ?_, ?_, ?_⟩
    · simp [step, hidle, hexp, hpos, ws_session.on_accept, hec]
    · unfold World.release; split <;> rfl
    · unfold World.release; split <;> rfl
    · unfold World.release; split <;> exact hidle
    · intro hone
      have hq : World.quiescent (World.release
          { w with
              session := ws_session.fail
                { w.session with
                    ws_ := { w.session.ws_ with accepts := w.session.ws_.accepts - 1 } }
                failure_site.accept }) := by
        unfold World.release World.quiescent
        rw [if_pos (by simp [ws_session.fail]; omega)]
        simp [ws_session.fail, hidle]
        omega
      exact ⟨hq.1, fun evs hd => quiescent_run hq evs hd⟩
  · have hst : step w (event.on_read ec delivered) = some (World.release
        (ws_session.on_read
          { w with
              session :=
                { w.session with
                    ws_ := { w.session.ws_ with reads := w.session.ws_.reads - 1 },
                    input_buffer := w.session.input_buffer ++ delivered } } ec)) := by
      simp [step, hidle, hexp, hpos, hec]
    refine ⟨_, hst, ?_, ?_, ?_, ?_, ?_⟩
    · intro hc
      subst hc
      unfold World.release
      split <;> rfl
    · intro hc
      unfold World.release
      cases ec with
      | success => exact absurd rfl hec
      | closed => exact absurd rfl hc
      | failure => split <;> rfl
    · unfold World.release
      cases ec with
      | success => exact absurd rfl hec
      | closed => split <;> rfl
      | failure => split <;> rfl
    · unfold World.release
      cases ec with
      | success => exact absurd rfl hec
      | closed => split <;> exact hidle
      | failure => split <;> exact hidle
    · intro hone
      have hq : World.quiescent (World.release
        (ws_session.on_read
          { w with
              session :=
                { w.session with
                    ws_ := { w.session.ws_ with reads := w.session.ws_.reads - 1 },
                    input_buffer := w.session.input_buffer ++ delivered } } ec)) := by
        unfold World.release World.quiescent
        cases ec with
        | success => exact absurd rfl hec
        | closed =>
          rw [if_pos (by simp [ws_session.on_read]; omega)]
          simp [ws_session.on_read, hidle]
          omega
        | failure =>
          rw [if_pos (by simp [ws_session.on_read, ws_session.fail]; omega)]
          simp [ws_session.on_read, ws_session.fail, hidle]
          omega
      exact ⟨hq.1, fun evs hd => quiescent_run hq evs hd⟩
  · refine ⟨World.release
        { w with
            session := ws_session.fail
              { w.session with
                  state_ := state.writing_completed,
                  ws_ := { w.session.ws_ with writes := w.session.ws_.writes - 1 } }
              failure_site.write }, ?_, ?_, ?_, ?_, ?_⟩
    · simp [step, hidle, hexp, hpos, ws_session.on_write, hec]
    · unfold World.release; split <;> rfl
    · unfold World.release; split <;> rfl
    · unfold World.release; split <;> exact hidle
    · intro hone
      have hq : World.quiescent (World.release
          { w with
              session := ws_session.fail
                { w.session with
                    state_ := state.writing_completed,
                    ws_ := { w.session.ws_ with writes := w.session.ws_.writes - 1 } }
                failure_site.write }) := by
        unfold World.release World.quiescent
        rw [if_pos (by simp [ws_session.fail]; omega)]
        simp [ws_session.fail, hidle]
        omega
      exact ⟨hq.1, fun evs hd => quiescent_run hq evs hd⟩

theorem error_completion_ends_session_witness :
    (∃ w1, step World.init (event.on_accept error_code.failure) = some w1 ∧
      w1.session.trace = [effect.fail failure_site.accept] ∧
      w1.session.state_ = state.none ∧ w1.in_handler = none ∧ w1.expired = true) ∧
    (∃ w1, step example_reading (event.on_read error_code.closed []) = some w1 ∧
      w1.session.trace = example_reading.session.trace ∧
      w1.session.state_ = state.reading_completed ∧ w1.in_handler = none ∧
      w1.expired = true) ∧
    (∃ w1, step example_reading (event.on_read error_code.failure [7]) = some w1 ∧
      w1.session.trace = example_reading.session.trace ++ [effect.fail failure_site.read] ∧
      w1.session.state_ = state.reading_completed ∧ w1.in_handler = none ∧
      w1.expired = true) ∧
    (∃ w1, step example_sent_idle (event.on_write error_code.failure) = some w1 ∧
      w1.session.trace = example_sent_idle.session.trace ++
        [effect.fail failure_site.write] ∧
      w1.session.state_ = state.writing_completed ∧ w1.in_handler = none ∧
      w1.expired = true) ∧
    (run example_kept_after_send = some example_kept_idle ∧
      ∃ w1, step example_kept_idle (event.on_read error_code.failure []) = some w1 ∧
        w1.session.trace = example_kept_idle.session.trace ++
          [effect.fail failure_site.read] ∧
        w1.expired = true ∧
        ∃ w2, run_from w1
            [event.app (op.send 1), event.on_write error_code.success,
             event.app (op.move 1), event.app (op.destroy 1),
             event.on_read error_code.success [3], event.app (op.destroy 2)] = some w2 ∧
          w2.session = w1.session) := by
  refine ⟨?_, ?_, ?_, ?_, rfl, ?_⟩
  · obtain ⟨w1, h1, h2, h3, h4, h5⟩ :=
      (error_completion_ends_session World.init error_code.failure [] (by decide) rfl rfl).1
        (by decide)
    exact ⟨w1, h1, h2, h3, h4, (h5 rfl).1⟩
  · obtain ⟨w1, h1, h2, _, h3, h4, h5⟩ :=
      (error_completion_ends_session example_reading error_code.closed [] (by decide)
        rfl rfl).2.1 (by decide)
    exact ⟨w1, h1, h2 rfl, h3, h4, (h5 rfl).1⟩
  · obtain ⟨w1, h1, _, h2, h3, h4, h5⟩ :=
      (error_completion_ends_session example_reading error_code.failure [7] (by decide)
        rfl rfl).2.1 (by decide)
    exact ⟨w1, h1, h2 (by decide), h3, h4, (h5 rfl).1⟩
  · obtain ⟨w1, h1, h2, h3, h4, h5⟩ :=
      (error_completion_ends_session example_sent_idle error_code.failure [] (by decide)
        rfl rfl).2.2 (by decide)
    exact ⟨w1, h1, h2, h3, h4, (h5 rfl).1⟩
  · obtain ⟨w1, h1, _, h2, _, _, h5⟩ :=
      (error_completion_ends_session example_kept_idle error_code.failure [] (by decide)
        rfl rfl).2.1 (by decide)
    have hw : w1 =
        (step example_kept_idle (event.on_read error_code.failure [])).getD World.init := by
      rw [h1]
      rfl
    subst hw
    exact ⟨_, h1, h2 (by decide), (h5 rfl).1, (h5 rfl).2 _ rfl⟩

/-! ## Destruction while a write is outstanding -/

theorem wrapper_do_read_writing (w : World) (hst : w.session.state_ = state.writing) :
    wrapper.do_read w = some w := by
  obtain ⟨s, e, hp, hs, ih⟩ := w
  simp only at hst
  unfold wrapper.do_read World.lock
  cases e
  · simp [ws_session.do_read, hst]
  · simp

theorem destroy_writing (w : World) (h : Nat) (m : message)
    (hm : w.handle h = some m) (hst : w.session.state_ = state.writing) :
    message.destroy w h = some
      { w with
          heap := if m.is_owning = true then w.heap.set m.base_ false else w.heap,
          handles := w.handles.set h none } := by
  have hr : (if m.is_sent = false ∧ m.is_owning = true then wrapper.do_read w
      else some w) = some w := by
    rw [wrapper_do_read_writing w hst]
    simp
  simp only [message.destroy, hm, hr, Option.map_some']
  cases m.is_owning <;> rfl

/-- C3: destroying an owning handle while the session state is `writing` leaves
the session untouched (no read issued, input buffer not cleared, state
unchanged); only the handle and its wrapper go away.  In particular, when
`send()` has been called on a handle and the handle is destroyed before the
write completes, exactly the one write has been issued and no read. -/
theorem destroy_while_writing_is_noop (w : World) (h : Nat) (m : message)
    (hm : w.handle h = some m) (hown : m.is_owning = true) :
    (w.session.state_ = state.writing →
      ∃ w1, step w (event.app (op.destroy h)) = some w1 ∧ w1.session = w.session ∧
        w1.expired = w.expired ∧ w1.in_handler = w.in_handler ∧
        w1.handle h = none ∧ w1.allocated m.base_ = false) ∧
    (w.allocated m.base_ = true → w.expired = false → w.session.ws_.writes = 0 →
      ∃ w1 w2, step w (event.app (op.send h)) = some w1 ∧
        w1.session.state_ = state.writing ∧
        w1.session.trace = w.session.trace ++ [effect.async_write w.session.output_buffer] ∧
        step w1 (event.app (op.destroy h)) = some w2 ∧ w2.session = w1.session) := by
  constructor
  · intro hst
    refine ⟨_, destroy_writing w h m hm hst, rfl, rfl, rfl, ?_, ?_⟩
    · simp only [World.handle]
      rw [lookup_set_none, if_pos rfl]
    · simp only [World.allocated]
      rw [if_pos hown]
      exact alloc_set_self _ _
  · intro ha hexp hwr
    have hs : ∃ w1, step w (event.app (op.send h)) = some w1 ∧
        w1.session.state_ = state.writing ∧
        w1.session.trace = w.session.trace ++ [effect.async_write w.session.output_buffer] ∧
        w1.handle h = some m := by
      refine ⟨
        { w with
            session :=
              { w.session with
                  state_ := state.writing,
                  ws_ := { w.session.ws_ with writes := 1 },
                  trace := w.session.trace ++
                    [effect.async_write w.session.output_buffer] } }, ?_, rfl, rfl, hm⟩
      simp [step, exec, message.send, hm, ha, wrapper.do_write, World.lock, hexp,
        ws_session.do_write, stream.async_write, hwr]
    obtain ⟨w1, h1, h2, h3, h4⟩ := hs
    exact ⟨w1, _, h1, h2, h3, destroy_writing w1 h m h4 h2, rfl⟩

theorem destroy_while_writing_witness :
    (example_writing.handle 0 =
        some { base_ := 0, is_owning := true, is_sent := false, buffer_read := [1, 2] } ∧
      example_writing.session.state_ = state.writing) ∧
    ∃ w1, step example_writing (event.app (op.destroy 0)) = some w1 ∧
      w1.session = example_writing.session ∧ w1.expired = example_writing.expired ∧
      w1.in_handler = example_writing.in_handler ∧
      w1.handle 0 = none ∧ w1.allocated 0 = false :=
  ⟨⟨rfl, rfl⟩,
    (destroy_while_writing_is_noop example_writing 0
      { base_ := 0, is_owning := true, is_sent := false, buffer_read := [1, 2] } rfl rfl).1 rfl⟩

/-- C6 (the code at a failing input): the dispatcher of frame `[1]` keeps the
handle (object 1) and calls `send()` on it; the write completes and frame `[2]`
arrives.  Object 1 still has `is_sent = false`, and destroying it now runs
`do_read` a second time for frame `[1]`: the input buffer is cleared and a read
is issued while the dispatcher of frame `[2]` is still running with its own
handle (object 2) alive. -/
theorem sent_handle_finalizes_again :
    ∃ w w1, run (example_kept_after_send ++ [event.on_read error_code.success [2]])
        = some w ∧
      w.handle 1 =
        some { base_ := 0, is_owning := true, is_sent := false, buffer_read := [1] } ∧
      w.session.trace =
        [effect.async_read, effect.message_handler [1], effect.async_write [],
         effect.async_read, effect.message_handler [2]] ∧
      w.session.input_buffer = [2] ∧
      step w (event.app (op.destroy 1)) = some w1 ∧
      w1.session.trace = w.session.trace ++ [effect.async_read] ∧
      w1.session.state_ = state.reading ∧ w1.session.input_buffer = [] ∧
      w1.in_handler = some 2 ∧
      w1.handle 2 =
        some { base_ := 1, is_owning := true, is_sent := false, buffer_read := [2] } :=
  ⟨_, _, rfl, rfl, rfl, rfl, rfl, rfl, rfl, rfl, rfl, rfl⟩

/-! ## Ownership of wrappers holds in every run -/

theorem Ownership.transfer {w w1 : World} (g : Ownership w)
    (hh : w1.handles = w.handles) (hp : w1.heap = w.heap) : Ownership w1 where
  uniq := by
    simp only [World.handle, hh]
    exact g.uniq
  owner_alloc := by
    simp only [World.handle, World.allocated, hh, hp]
    exact g.owner_alloc
  alloc_owner := by
    simp only [World.handle, World.allocated, hh, hp]
    exact g.alloc_owner
  unsent_flag := by
    simp only [World.handle, hh]
    exact g.unsent_flag

theorem release_handles (w : World) :
    w.release.handles = w.handles ∧ w.release.heap = w.heap ∧
    w.release.session = w.session ∧ w.release.in_handler = w.in_handler := by
  unfold World.release
  split <;> exact ⟨rfl, rfl, rfl, rfl⟩

theorem handle_set_none {w w1 : World} {h : Nat} (hh : w1.handles = w.handles.set h none)
    (i : Nat) : w1.handle i = if i = h then none else w.handle i := by
  simp only [World.handle, hh]
  exact lookup_set_none _ _ _

theorem handle_append {w w1 : World} {x : message} (hh : w1.handles = w.handles ++ [some x])
    (i : Nat) (m : message) (hm : w1.handle i = some m) :
    (i < w.handles.length ∧ w.handle i = some m) ∨ (i = w.handles.length ∧ m = x) := by
  simp only [World.handle, hh] at hm
  by_cases h1 : i < w.handles.length
  · rw [lookup_append_lt _ h1] at hm
    exact Or.inl ⟨h1, hm⟩
  · by_cases h2 : i = w.handles.length
    · subst h2
      rw [lookup_append_length] at hm
      exact Or.inr ⟨rfl, (Option.some.inj hm).symm⟩
    · rw [lookup_append_gt _ (by omega)] at hm
      simp at hm

theorem handle_append_old {w w1 : World} {x : message}
    (hh : w1.handles = w.handles ++ [some x]) {i : Nat} {m : message}
    (hm : w.handle i = some m) : w1.handle i = some m := by
  simp only [World.handle, hh]
  rw [lookup_append_lt _ (handle_lt hm)]
  exact hm

theorem handle_append_new {w w1 : World} {x : message}
    (hh : w1.handles = w.handles ++ [some x]) : w1.handle w.handles.length = some x := by
  simp only [World.handle, hh]
  rw [lookup_append_length]

theorem ownership_destroy {w w1 : World} {h : Nat} {m : message} (g : Ownership w)
    (hm : w.handle h = some m) (hh : w1.handles = w.handles.set h none)
    (hp : w1.heap = if m.is_owning = true then w.heap.set m.base_ false else w.heap) :
    Ownership w1 := by
  have hsub : ∀ i mi, w1.handle i = some mi → i ≠ h ∧ w.handle i = some mi := by
    intro i mi hi
    rw [handle_set_none hh] at hi
    by_cases h1 : i = h
    · rw [if_pos h1] at hi; simp at hi
    · rw [if_neg h1] at hi; exact ⟨h1, hi⟩
  have hsup : ∀ i mi, i ≠ h → w.handle i = some mi → w1.handle i = some mi := by
    intro i mi h1 hi
    rw [handle_set_none hh, if_neg h1]
    exact hi
  refine ⟨?_, ?_, ?_, ?_⟩
  · intro i j mi mj hi hj hoi hoj hb
    exact g.uniq i j mi mj (hsub i mi hi).2 (hsub j mj hj).2 hoi hoj hb
  · intro i mi hi hoi
    obtain ⟨hne, hi0⟩ := hsub i mi hi
    have ha := g.owner_alloc i mi hi0 hoi
    simp only [World.allocated, hp]
    by_cases ho : m.is_owning = true
    · rw [if_pos ho]
      have hb : mi.base_ ≠ m.base_ := fun hb => hne (g.uniq i h mi m hi0 hm hoi ho hb)
      exact alloc_set_ne _ _ _ hb ha
    · rw [if_neg ho]
      exact ha
  · intro b hb
    simp only [World.allocated, hp] at hb
    by_cases ho : m.is_owning = true
    · rw [if_pos ho] at hb
      obtain ⟨hne, hb0⟩ := alloc_set_false _ _ _ hb
      obtain ⟨i, mi, hi, hoi, hbi⟩ := g.alloc_owner b hb0
      have h1 : i ≠ h := by
        intro hx
        subst hx
        rw [hm] at hi
        have : m = mi := Option.some.inj hi
        subst this
        exact hne hbi.symm
      exact ⟨i, mi, hsup i mi h1 hi, hoi, hbi⟩
    · rw [if_neg ho] at hb
      obtain ⟨i, mi, hi, hoi, hbi⟩ := g.alloc_owner b hb
      have h1 : i ≠ h := by
        intro hx
        subst hx
        rw [hm] at hi
        have : m = mi := Option.some.inj hi
        subst this
        exact ho hoi
      exact ⟨i, mi, hsup i mi h1 hi, hoi, hbi⟩
  · intro i mi hi
    exact g.unsent_flag i mi (hsub i mi hi).2

theorem ownership_on_read {w w1 : World} {view : List Nat} (g : Ownership w)
    (hh : w1.handles = w.handles ++
      [some { base_ := w.heap.length, is_owning := true, is_sent := false,
              buffer_read := view }])
    (hp : w1.heap = w.heap ++ [true]) : Ownership w1 := by
  have hold : ∀ i mi, w.handle i = some mi → mi.is_owning = true →
      mi.base_ < w.heap.length := fun i mi hi hoi => alloc_lt (g.owner_alloc i mi hi hoi)
  refine ⟨?_, ?_, ?_, ?_⟩
  · intro i j mi mj hi hj hoi hoj hb
    rcases handle_append hh i mi hi with ⟨_, hi0⟩ | ⟨hi0, rfl⟩
    · rcases handle_append hh j mj hj with ⟨_, hj0⟩ | ⟨hj0, rfl⟩
      · exact g.uniq i j mi mj hi0 hj0 hoi hoj hb
      · have := hold i mi hi0 hoi
        simp only at hb
        omega
    · rcases handle_append hh j mj hj with ⟨_, hj0⟩ | ⟨hj0, rfl⟩
      · have := hold j mj hj0 hoj
        simp only at hb
        omega
      · rw [hi0, hj0]
  · intro i mi hi hoi
    simp only [World.allocated, hp]
    rcases handle_append hh i mi hi with ⟨_, hi0⟩ | ⟨_, rfl⟩
    · rw [List.getElem?_append_left (hold i mi hi0 hoi)]
      exact g.owner_alloc i mi hi0 hoi
    · simp
  · intro b hb
    simp only [World.allocated, hp] at hb
    rcases alloc_append_true _ _ hb with hb0 | hb0
    · obtain ⟨i, mi, hi, hoi, hbi⟩ := g.alloc_owner b hb0
      exact ⟨i, mi, handle_append_old hh hi, hoi, hbi⟩
    · exact ⟨w.handles.length, _, handle_append_new hh, rfl, hb0.symm⟩
  · intro i mi hi
    rcases handle_append hh i mi hi with ⟨_, hi0⟩ | ⟨_, rfl⟩
    · exact g.unsent_flag i mi hi0
    · rfl

theorem move_back {w : World} {h : Nat} {m : message} (hm : w.handle h = some m)
    (i : Nat) (mi : message) (hi : (message.move w h).handle i = some mi)
    (hoi : mi.is_owning = true) :
    (i = w.handles.length ∧ w.handle h = some mi) ∨
      (i ≠ w.handles.length ∧ i ≠ h ∧ w.handle i = some mi) := by
  rw [move_handle hm] at hi
  by_cases h1 : i = w.handles.length
  · rw [if_pos h1] at hi
    exact Or.inl ⟨h1, by rw [hm, hi]⟩
  · rw [if_neg h1] at hi
    by_cases h3 : i = h
    · rw [if_pos h3] at hi
      have : ({ m with is_owning := false } : message) = mi := Option.some.inj hi
      rw [← this] at hoi
      simp at hoi
    · rw [if_neg h3] at hi
      exact Or.inr ⟨h1, h3, hi⟩

theorem move_forth {w : World} {h : Nat} {m : message} (hm : w.handle h = some m)
    (i : Nat) (mi : message) (hi : w.handle i = some mi) (hoi : mi.is_owning = true) :
    ∃ j, (message.move w h).handle j = some mi := by
  by_cases h3 : i = h
  · subst h3
    refine ⟨w.handles.length, ?_⟩
    rw [move_handle hm, if_pos rfl, ← hm, hi]
  · refine ⟨i, ?_⟩
    have h1 : i ≠ w.handles.length := by have := handle_lt hi; omega
    rw [move_handle hm, if_neg h1, if_neg h3, hi]

theorem move_keeps {w : World} {h : Nat} {m : message} (hm : w.handle h = some m)
    (n : Nat) (mn : message) (hn : w.handle n = some mn) :
    ∃ mx, (message.move w h).handle n = some mx ∧ mx.base_ = mn.base_ := by
  have h1 : n ≠ w.handles.length := by have := handle_lt hn; omega
  rw [move_handle hm, if_neg h1]
  by_cases h3 : n = h
  · subst h3
    rw [if_pos rfl]
    rw [hm] at hn
    have : m = mn := Option.some.inj hn
    subst this
    exact ⟨_, rfl, rfl⟩
  · rw [if_neg h3]
    exact ⟨mn, hn, rfl⟩

theorem ownership_move {w : World} {h : Nat} {m : message} (g : Ownership w)
    (hm : w.handle h = some m) : Ownership (message.move w h) := by
  have hheap : (message.move w h).heap = w.heap := by rw [move_eq hm]
  refine ⟨?_, ?_, ?_, ?_⟩
  · intro i j mi mj hi hj hoi hoj hb
    rcases move_back hm i mi hi hoi with ⟨hi1, hi0⟩ | ⟨hi1, hi2, hi0⟩
    · rcases move_back hm j mj hj hoj with ⟨hj1, _⟩ | ⟨_, hj2, hj0⟩
      · rw [hi1, hj1]
      · exact absurd (g.uniq j h mj mi hj0 hi0 hoj hoi hb.symm) hj2
    · rcases move_back hm j mj hj hoj with ⟨_, hj0⟩ | ⟨_, _, hj0⟩
      · exact absurd (g.uniq i h mi mj hi0 hj0 hoi hoj hb) hi2
      · exact g.uniq i j mi mj hi0 hj0 hoi hoj hb
  · intro i mi hi hoi
    simp only [World.allocated, hheap]
    rcases move_back hm i mi hi hoi with ⟨_, hi0⟩ | ⟨_, _, hi0⟩
    · exact g.owner_alloc h mi hi0 hoi
    · exact g.owner_alloc i mi hi0 hoi
  · intro b hb
    have hb0 : w.allocated b = true := by simpa [World.allocated, hheap] using hb
    obtain ⟨i, mi, hi, hoi, hbi⟩ := g.alloc_owner b hb0
    obtain ⟨j, hj⟩ := move_forth hm i mi hi hoi
    exact ⟨j, mi, hj, hoi, hbi⟩
  · intro i mi hi
    rw [move_handle hm] at hi
    have hs := g.unsent_flag h m hm
    by_cases h1 : i = w.handles.length
    · rw [if_pos h1] at hi
      have : m = mi := Option.some.inj hi
      exact this ▸ hs
    · rw [if_neg h1] at hi
      by_cases h3 : i = h
      · rw [if_pos h3] at hi
        have : ({ m with is_owning := false } : message) = mi := Option.some.inj hi
        rw [← this]
        exact hs
      · rw [if_neg h3] at hi
        exact g.unsent_flag i mi hi

theorem destroy_shape {w w1 : World} {h : Nat} (hd : message.destroy w h = some w1) :
    ∃ m, w.handle h = some m ∧ w1.handles = w.handles.set h none ∧
      w1.heap = (if m.is_owning = true then w.heap.set m.base_ false else w.heap) ∧
      w1.expired = w.expired ∧ w1.in_handler = w.in_handler := by
  obtain ⟨m, w0, hm, hc, rfl⟩ := destroy_cases hd
  have h0 : w0.handles = w.handles ∧ w0.heap = w.heap ∧ w0.expired = w.expired ∧
      w0.in_handler = w.in_handler := by
    rcases hc with ⟨_, _, hr⟩ | ⟨_, rfl⟩
    · rcases wrapper_do_read_cases hr with ⟨_, rfl⟩ | ⟨_, s, _, rfl⟩
      · exact ⟨rfl, rfl, rfl, rfl⟩
      · exact ⟨rfl, rfl, rfl, rfl⟩
    · exact ⟨rfl, rfl, rfl, rfl⟩
  obtain ⟨e1, e2, e3, e4⟩ := h0
  exact ⟨m, hm, by simp [e1], by simp [e2], e3, e4⟩

theorem step_shape {w w1 : World} {ev : event} (h : step w ev = some w1) :
    (w1.handles = w.handles ∧ w1.heap = w.heap) ∨
    (∃ view, w1.handles = w.handles ++
        [some { base_ := w.heap.length, is_owning := true, is_sent := false,
                buffer_read := view }] ∧
      w1.heap = w.heap ++ [true]) ∨
    (∃ i m, w.handle i = some m ∧ w1 = message.move w i) ∨
    (∃ i m, w.handle i = some m ∧ w1.handles = w.handles.set i none ∧
      w1.heap = if m.is_owning = true then w.heap.set m.base_ false else w.heap) := by
  cases ev with
  | on_accept ec =>
    simp only [step] at h
    split at h
    · simp only [Option.map_eq_some'] at h
      obtain ⟨s, _, rfl⟩ := h
      exact Or.inl ⟨(release_handles _).1, (release_handles _).2.1⟩
    · simp at h; subst h; exact Or.inl ⟨rfl, rfl⟩
  | on_write ec =>
    simp only [step] at h
    split at h
    · simp only [Option.map_eq_some'] at h
      obtain ⟨s, _, rfl⟩ := h
      exact Or.inl ⟨(release_handles _).1, (release_handles _).2.1⟩
    · simp at h; subst h; exact Or.inl ⟨rfl, rfl⟩
  | on_read ec delivered =>
    simp only [step] at h
    split at h
    · simp only [Option.some.injEq] at h
      subst h
      cases ec with
      | success =>
        right; left
        exact ⟨w.session.input_buffer ++ delivered, rfl, rfl⟩
      | closed => exact Or.inl ⟨(release_handles _).1, (release_handles _).2.1⟩
      | failure => exact Or.inl ⟨(release_handles _).1, (release_handles _).2.1⟩
    · simp at h; subst h; exact Or.inl ⟨rfl, rfl⟩
  | handler_return =>
    simp only [step] at h
    split at h
    · simp only [Option.map_eq_some'] at h
      obtain ⟨w0, hd, rfl⟩ := h
      obtain ⟨m, hm, e1, e2, _, _⟩ := destroy_shape hd
      right; right; right
      exact ⟨_, m, hm, by rw [(release_handles _).1]; exact e1,
        by rw [(release_handles _).2.1]; exact e2⟩
    · simp at h; subst h; exact Or.inl ⟨rfl, rfl⟩
  | app o =>
    cases o with
    | data_out i bytes =>
      simp only [step, exec, message.data_out] at h
      cases hm : w.handle i with
      | none => simp [hm] at h
      | some m =>
        cases he : w.expired with
        | true => simp [hm, he] at h
        | false => simp [hm, he] at h; subst h; exact Or.inl ⟨rfl, rfl⟩
    | send i =>
      simp only [step, exec, message.send] at h
      cases hm : w.handle i with
      | none => simp [hm] at h
      | some m =>
        by_cases ha : w.allocated m.base_ = true
        · simp [hm, ha] at h
          rcases wrapper_do_write_cases h with ⟨_, rfl⟩ | ⟨_, s, _, rfl⟩
          · exact Or.inl ⟨rfl, rfl⟩
          · exact Or.inl ⟨rfl, rfl⟩
        · simp [hm, ha] at h
    | move i =>
      simp only [step, exec] at h
      cases hm : w.handle i with
      | none => simp [hm] at h
      | some m =>
        simp [hm] at h
        right; right; left
        exact ⟨i, m, hm, h.symm⟩
    | destroy i =>
      simp only [step, exec] at h
      obtain ⟨m, hm, e1, e2, _, _⟩ := destroy_shape h
      right; right; right
      exact ⟨i, m, hm, e1, e2⟩

theorem ownership_step {w w1 : World} {ev : event} (h : step w ev = some w1)
    (g : Ownership w) : Ownership w1 := by
  rcases step_shape h with ⟨hh, hp⟩ | ⟨view, hh, hp⟩ | ⟨i, m, hm, rfl⟩ | ⟨i, m, hm, hh, hp⟩
  · exact g.transfer hh hp
  · exact ownership_on_read g hh hp
  · exact ownership_move g hm
  · exact ownership_destroy g hm hh hp

theorem init_ownership : Ownership World.init where
  uniq := by intro i j mi mj hi; simp [World.init, World.handle] at hi
  owner_alloc := by intro i m hi; simp [World.init, World.handle] at hi
  alloc_owner := by intro b hb; simp [World.init, World.allocated] at hb
  unsent_flag := by intro i m hi; simp [World.init, World.handle] at hi

/-- In every run each wrapper has exactly one owning object as long as it is
allocated: the wrapper of an owning object is never dangling. -/
theorem run_ownership {evs : List event} {w : World} (h : run evs = some w) :
    Ownership w := by
  have key : ∀ (evs : List event) (w0 w1 : World), run_from w0 evs = some w1 →
      Ownership w0 → Ownership w1 := by
    intro evs
    induction evs with
    | nil => intro w0 w1 h0 g; simp [run_from] at h0; subst h0; exact g
    | cons ev evs ih =>
      intro w0 w1 h0 g
      simp only [run_from, Option.bind_eq_some] at h0
      obtain ⟨w2, hs, hr⟩ := h0
      exact ih w2 w1 hr (ownership_step hs g)
  exact key evs World.init w h init_ownership


/-! ## The invariant of disciplined runs -/

theorem Good.settle {sent : List Nat} {w1 : World} (hown : Ownership w1)
    (hlt : ∀ b, b ∈ sent → b < w1.heap.length)
    (harg : ∀ n, w1.in_handler = some n → ∃ m, w1.handle n = some m)
    (hE : w1.expired = true →
      w1.in_handler = none ∧ w1.session.ws_.accepts = 0 ∧ w1.session.ws_.reads = 0 ∧
      w1.session.ws_.writes = 0)
    (hL : w1.expired = false →
      (w1.session.state_ = state.none ∧ w1.session.ws_.accepts = 1 ∧
          w1.session.ws_.reads = 0 ∧ w1.session.ws_.writes = 0 ∧ w1.in_handler = none) ∨
      (w1.session.state_ = state.reading ∧ w1.session.ws_.accepts = 0 ∧
          w1.session.ws_.reads = 1 ∧ w1.session.ws_.writes = 0) ∨
      (w1.session.state_ = state.writing ∧ w1.session.ws_.accepts = 0 ∧
          w1.session.ws_.reads = 0 ∧ w1.session.ws_.writes = 1))
    (hno : w1.expired = false → ∀ i m, w1.handle i = some m → m.is_owning = true →
      m.base_ ∉ sent → False) : Good sent w1 where
  own := hown
  sent_lt := hlt
  arg_alive := harg
  expired_idle := hE
  phase := fun hx => by
    rcases hL hx with h | h | h
    · exact Or.inl h
    · exact Or.inr (Or.inl h)
    · exact Or.inr (Or.inr (Or.inl h))
  unsent := fun hx i m hm ho hb => (hno hx i m hm ho hb).elim

theorem Good.no_unsent {sent : List Nat} {w : World} (g : Good sent w)
    (hexp : w.expired = false) (hst : w.session.state_ ≠ state.reading_completed) :
    ∀ i m, w.handle i = some m → m.is_owning = true → m.base_ ∉ sent → False :=
  fun i m hm ho hb => hst (g.unsent hexp i m hm ho hb).1

theorem Good.carry {sent : List Nat} {w w1 : World} (g : Good sent w)
    (hh : w1.handles = w.handles) (hp : w1.heap = w.heap) (he : w1.expired = w.expired)
    (hi : w1.in_handler = w.in_handler) (hst : w1.session.state_ = w.session.state_)
    (hws : w1.session.ws_ = w.session.ws_)
    (hib : w1.session.input_buffer = w.session.input_buffer) : Good sent w1 where
  own := g.own.transfer hh hp
  sent_lt := by
    rw [hp]
    exact g.sent_lt
  arg_alive := by
    simp only [World.handle, hh, hi]
    exact g.arg_alive
  expired_idle := by
    simp only [he, hi, hws]
    exact g.expired_idle
  phase := by
    simp only [World.handle, hh, he, hi, hst, hws]
    exact g.phase
  unsent := by
    simp only [World.handle, hh, he, hi, hst, hib]
    exact g.unsent

theorem init_good : Good [] World.init :=
  Good.settle init_ownership (by intro b hb; simp at hb)
    (by intro n hn; simp [World.init] at hn)
    (by intro h; simp [World.init] at h)
    (by intro _; left; exact ⟨rfl, rfl, rfl, rfl, rfl⟩)
    (by intro _ i m hm; simp [World.init, World.handle] at hm)

theorem good_on_accept {sent : List Nat} {w : World} (g : Good sent w) (ec : error_code) :
    ∃ w1, step w (event.on_accept ec) = some w1 ∧ Good sent w1 := by
  by_cases hg : w.in_handler = none ∧ w.expired = false ∧ 0 < w.session.ws_.accepts
  · obtain ⟨hidle, hexp, hpos⟩ := hg
    have hph : w.session.state_ = state.none ∧ w.session.ws_.accepts = 1 ∧
        w.session.ws_.reads = 0 ∧ w.session.ws_.writes = 0 := by
      rcases g.phase hexp with ⟨h1, h2, h3, h4, _⟩ | ⟨_, h, _⟩ | ⟨_, h, _⟩ | ⟨_, h, _⟩
      · exact ⟨h1, h2, h3, h4⟩
      · omega
      · omega
      · omega
    obtain ⟨hst, hacc, hrd, hwr⟩ := hph
    have hno := g.no_unsent hexp (by rw [hst]; decide)
    have harg : ∀ n, w.in_handler = some n → ∃ m, w.handle n = some m := g.arg_alive
    by_cases hec : ec = error_code.success
    · subst hec
      have hstep : step w (event.on_accept error_code.success) = some
          { w with
              session :=
                { w.session with
                    state_ := state.reading, input_buffer := [],
                    ws_ := { accepts := 0, reads := 1, writes := w.session.ws_.writes },
                    trace := w.session.trace ++ [effect.async_read] } } := by
        simp [step, hidle, hexp, hacc, ws_session.on_accept, ws_session.do_read, hst,
          stream.async_read, hrd, World.release]
      refine ⟨_, hstep, Good.settle (ownership_step hstep g.own) g.sent_lt harg ?_ ?_ ?_⟩
      · intro hx; rw [show w.expired = false from hexp] at hx; exact absurd hx (by decide)
      · intro _; right; left; exact ⟨rfl, rfl, rfl, hwr⟩
      · intro _; exact hno
    · have hstep : step w (event.on_accept ec) = some
          { session := ws_session.fail
              { w.session with ws_ := { w.session.ws_ with accepts := 0 } }
              failure_site.accept,
            expired := true, heap := w.heap, handles := w.handles,
            in_handler := w.in_handler } := by
        simp [step, hidle, hexp, hacc, ws_session.on_accept, World.release, ws_session.fail,
          hrd, hwr, hec]
      refine ⟨_, hstep, Good.settle (ownership_step hstep g.own) g.sent_lt harg ?_ ?_ ?_⟩
      · intro _; exact ⟨hidle, rfl, hrd, hwr⟩
      · intro hx; cases hx
      · intro hx; cases hx
  · exact ⟨w, by simp only [step, if_neg hg], g⟩

theorem good_on_write {sent : List Nat} {w : World} (g : Good sent w) (ec : error_code) :
    ∃ w1, step w (event.on_write ec) = some w1 ∧ Good sent w1 := by
  by_cases hg : w.in_handler = none ∧ w.expired = false ∧ 0 < w.session.ws_.writes
  · obtain ⟨hidle, hexp, hpos⟩ := hg
    have hph : w.session.state_ = state.writing ∧ w.session.ws_.accepts = 0 ∧
        w.session.ws_.reads = 0 ∧ w.session.ws_.writes = 1 := by
      rcases g.phase hexp with ⟨_, _, _, h, _⟩ | ⟨_, _, _, h⟩ | h | ⟨_, _, _, h, _⟩
      · omega
      · omega
      · exact h
      · omega
    obtain ⟨hst, hacc, hrd, hwr⟩ := hph
    have hno := g.no_unsent hexp (by rw [hst]; decide)
    have harg : ∀ n, w.in_handler = some n → ∃ m, w.handle n = some m := g.arg_alive
    by_cases hec : ec = error_code.success
    · subst hec
      have hstep : step w (event.on_write error_code.success) = some
          { w with
              session :=
                { w.session with
                    state_ := state.reading, input_buffer := [], output_buffer := [],
                    ws_ := { accepts := w.session.ws_.accepts, reads := 1, writes := 0 },
                    trace := w.session.trace ++ [effect.async_read] } } := by
        simp [step, hidle, hexp, hwr, ws_session.on_write, ws_session.do_read,
          stream.async_read, hrd, World.release]
      refine ⟨_, hstep, Good.settle (ownership_step hstep g.own) g.sent_lt harg ?_ ?_ ?_⟩
      · intro hx; rw [show w.expired = false from hexp] at hx; exact absurd hx (by decide)
      · intro _; right; left; exact ⟨rfl, hacc, rfl, rfl⟩
      · intro _; exact hno
    · have hstep : step w (event.on_write ec) = some
          { session := ws_session.fail
              { w.session with
                  state_ := state.writing_completed,
                  ws_ := { w.session.ws_ with writes := 0 } } failure_site.write,
            expired := true, heap := w.heap, handles := w.handles,
            in_handler := w.in_handler } := by
        simp [step, hidle, hexp, hwr, ws_session.on_write, World.release, ws_session.fail,
          hrd, hacc, hec]
      refine ⟨_, hstep, Good.settle (ownership_step hstep g.own) g.sent_lt harg ?_ ?_ ?_⟩
      · intro _; exact ⟨hidle, hacc, hrd, rfl⟩
      · intro hx; cases hx
      · intro hx; cases hx
  · exact ⟨w, by simp only [step, if_neg hg], g⟩

theorem good_on_read {sent : List Nat} {w : World} (g : Good sent w) (ec : error_code)
    (delivered : List Nat) :
    ∃ w1, step w (event.on_read ec delivered) = some w1 ∧ Good sent w1 := by
  by_cases hg : w.in_handler = none ∧ w.expired = false ∧ 0 < w.session.ws_.reads
  · obtain ⟨hidle, hexp, hpos⟩ := hg
    have hph : w.session.state_ = state.reading ∧ w.session.ws_.accepts = 0 ∧
        w.session.ws_.reads = 1 ∧ w.session.ws_.writes = 0 := by
      rcases g.phase hexp with ⟨_, _, h, _⟩ | h | ⟨_, _, h, _⟩ | ⟨_, _, h, _⟩
      · omega
      · exact h
      · omega
      · omega
    obtain ⟨hst, hacc, hrd, hwr⟩ := hph
    have hno := g.no_unsent hexp (by rw [hst]; decide)
    have harg : ∀ n, w.in_handler = some n → ∃ m, w.handle n = some m := g.arg_alive
    cases ec with
    | success =>
      have hstep : step w (event.on_read error_code.success delivered) = some
          { session :=
              { state_ := state.reading_completed,
                ws_ := { w.session.ws_ with reads := 0 },
                input_buffer := w.session.input_buffer ++ delivered,
                output_buffer := w.session.output_buffer,
                trace := w.session.trace ++
                  [effect.message_handler (w.session.input_buffer ++ delivered)] },
            expired := false,
            heap := w.heap ++ [true],
            handles := w.handles ++
              [some { base_ := w.heap.length, is_owning := true, is_sent := false,
                      buffer_read := w.session.input_buffer ++ delivered }],
            in_handler := some w.handles.length } := by
        simp [step, hidle, hexp, hrd, ws_session.on_read, message.data]
      have hfresh : w.heap.length ∉ sent := fun hx => by
        have := g.sent_lt _ hx
        omega
      refine ⟨_, hstep, ?_⟩
      refine ⟨ownership_step hstep g.own, ?_, ?_, ?_, ?_, ?_⟩
      · intro b hb
        have := g.sent_lt b hb
        simp only [List.length_append, List.length_singleton]
        omega
      · intro n hn
        simp only [Option.some.injEq] at hn
        subst hn
        exact ⟨_, handle_append_new rfl⟩
      · intro hx; cases hx
      · intro _
        right; right; right
        exact ⟨rfl, hacc, rfl, hwr, w.handles.length, _, rfl, handle_append_new rfl, hfresh⟩
      · intro _ i mi hi hoi hbi
        rcases handle_append rfl i mi hi with ⟨_, hi0⟩ | ⟨_, rfl⟩
        · exact (hno i mi hi0 hoi hbi).elim
        · exact ⟨rfl, rfl, w.handles.length, _, rfl, handle_append_new rfl, rfl⟩
    | closed =>
      have hstep : step w (event.on_read error_code.closed delivered) = some
          { session :=
              { w.session with
                  state_ := state.reading_completed,
                  ws_ := { w.session.ws_ with reads := 0 },
                  input_buffer := w.session.input_buffer ++ delivered },
            expired := true, heap := w.heap, handles := w.handles,
            in_handler := w.in_handler } := by
        simp [step, hidle, hexp, hrd, ws_session.on_read, World.release, hacc, hwr]
      refine ⟨_, hstep, Good.settle (ownership_step hstep g.own) g.sent_lt harg ?_ ?_ ?_⟩
      · intro _; exact ⟨hidle, hacc, rfl, hwr⟩
      · intro hx; cases hx
      · intro hx; cases hx
    | failure =>
      have hstep : step w (event.on_read error_code.failure delivered) = some
          { session := ws_session.fail
              { w.session with
                  state_ := state.reading_completed,
                  ws_ := { w.session.ws_ with reads := 0 },
                  input_buffer := w.session.input_buffer ++ delivered } failure_site.read,
            expired := true, heap := w.heap, handles := w.handles,
            in_handler := w.in_handler } := by
        simp [step, hidle, hexp, hrd, ws_session.on_read, World.release, hacc, hwr,
          ws_session.fail]
      refine ⟨_, hstep, Good.settle (ownership_step hstep g.own) g.sent_lt harg ?_ ?_ ?_⟩
      · intro _; exact ⟨hidle, hacc, rfl, hwr⟩
      · intro hx; cases hx
      · intro hx; cases hx
  · exact ⟨w, by simp only [step, if_neg hg], g⟩


theorem good_data_out {sent : List Nat} {w : World} (g : Good sent w) (h : Nat)
    (bytes : List Nat) (hd : op_defined w (op.data_out h bytes) = true) :
    ∃ w1, step w (event.app (op.data_out h bytes)) = some w1 ∧ Good sent w1 := by
  simp only [op_defined, Bool.and_eq_true, Bool.not_eq_true'] at hd
  obtain ⟨m, hm⟩ := Option.isSome_iff_exists.1 hd.1
  refine ⟨{ w with
              session :=
                { w.session with output_buffer := w.session.output_buffer ++ bytes } },
    by simp [step, exec, message.data_out, hm, hd.2], ?_⟩
  exact g.carry rfl rfl rfl rfl rfl rfl rfl

theorem good_send {sent : List Nat} {w : World} (g : Good sent w) (h : Nat)
    (hd : op_defined w (op.send h) = true)
    (hs : sends_once sent w (event.app (op.send h)) = true) :
    ∃ w1, step w (event.app (op.send h)) = some w1 ∧
      Good (sent_after sent w (event.app (op.send h))) w1 := by
  cases hm : w.handle h with
  | none => simp [op_defined, hm] at hd
  | some m =>
    simp only [op_defined, hm] at hd
    simp only [sends_once, hm, decide_eq_true_eq] at hs
    simp only [sent_after, hm]
    have hlt : ∀ b, b ∈ m.base_ :: sent → b < w.heap.length := by
      intro b hb
      rcases List.mem_cons.1 hb with rfl | hb
      · exact alloc_lt hd
      · exact g.sent_lt b hb
    cases hexp : w.expired with
    | true =>
      refine ⟨w, by simp [step, exec, send_expired w h m hexp hm hd], ?_⟩
      refine Good.settle g.own hlt g.arg_alive g.expired_idle ?_ ?_
      · intro hx; rw [hexp] at hx; cases hx
      · intro hx; rw [hexp] at hx; cases hx
    | false =>
      obtain ⟨i0, m0, hi0, ho0, hb0⟩ := g.own.alloc_owner _ hd
      obtain ⟨hst, _, n, mn, hn, hmn, hbn⟩ :=
        g.unsent hexp i0 m0 hi0 ho0 (by rw [hb0]; exact hs)
      have hph : w.session.ws_.accepts = 0 ∧ w.session.ws_.reads = 0 ∧
          w.session.ws_.writes = 0 := by
        rcases g.phase hexp with ⟨h1, _⟩ | ⟨h1, _⟩ | ⟨h1, _⟩ | ⟨_, h2, h3, h4, _⟩
        · rw [hst] at h1; cases h1
        · rw [hst] at h1; cases h1
        · rw [hst] at h1; cases h1
        · exact ⟨h2, h3, h4⟩
      obtain ⟨hacc, hrd, hwr⟩ := hph
      have hstep : step w (event.app (op.send h)) = some
          { w with
              session :=
                { w.session with
                    state_ := state.writing,
                    ws_ := { w.session.ws_ with writes := 1 },
                    trace := w.session.trace ++
                      [effect.async_write w.session.output_buffer] } } := by
        simp [step, exec, message.send, hm, hd, wrapper.do_write, World.lock, hexp,
          ws_session.do_write, stream.async_write, hwr]
      refine ⟨_, hstep, Good.settle (ownership_step hstep g.own) hlt g.arg_alive ?_ ?_ ?_⟩
      · intro hx
        rw [show w.expired = false from hexp] at hx
        exact absurd hx (by decide)
      · intro _; right; right; exact ⟨rfl, hacc, hrd, rfl⟩
      · intro _ i mi hi hoi hbi
        have hbi0 : mi.base_ ∉ sent := fun hx => hbi (List.mem_cons_of_mem _ hx)
        obtain ⟨_, _, n1, mn1, hn1, hmn1, hbn1⟩ := g.unsent hexp i mi hi hoi hbi0
        rw [hn] at hn1
        have hnn : n = n1 := Option.some.inj hn1
        subst hnn
        rw [hmn] at hmn1
        have hmm : mn = mn1 := Option.some.inj hmn1
        subst hmm
        apply hbi
        rw [← hbn1, hbn, hb0]
        exact List.mem_cons_self _ _

theorem good_move {sent : List Nat} {w : World} (g : Good sent w) (h : Nat)
    (hd : op_defined w (op.move h) = true) :
    ∃ w1, step w (event.app (op.move h)) = some w1 ∧ Good sent w1 := by
  simp only [op_defined] at hd
  obtain ⟨m, hm⟩ := Option.isSome_iff_exists.1 hd
  have hstep : step w (event.app (op.move h)) = some (message.move w h) := by
    simp [step, exec, hm]
  have hheap : (message.move w h).heap = w.heap := by rw [move_eq hm]
  have hsess : (message.move w h).session = w.session := by rw [move_eq hm]
  have hexp : (message.move w h).expired = w.expired := by rw [move_eq hm]
  have hinh : (message.move w h).in_handler = w.in_handler := by rw [move_eq hm]
  have hback : ∀ i mi, (message.move w h).handle i = some mi → mi.is_owning = true →
      ∃ j, w.handle j = some mi := by
    intro i mi hi hoi
    rcases move_back hm i mi hi hoi with ⟨_, hi0⟩ | ⟨_, _, hi0⟩
    · exact ⟨h, hi0⟩
    · exact ⟨i, hi0⟩
  refine ⟨_, hstep, ownership_step hstep g.own, ?_, ?_, ?_, ?_, ?_⟩
  · rw [hheap]; exact g.sent_lt
  · intro n hn
    rw [hinh] at hn
    obtain ⟨mn, hmn⟩ := g.arg_alive n hn
    obtain ⟨mx, hmx, _⟩ := move_keeps hm n mn hmn
    exact ⟨mx, hmx⟩
  · intro hx
    rw [hexp] at hx
    simpa [hsess, hinh] using g.expired_idle hx
  · intro hx
    rw [hexp] at hx
    rw [hsess, hinh]
    rcases g.phase hx with h1 | h1 | h1 | ⟨h1, h2, h3, h4, n, mn, hn, hmn, hbn⟩
    · exact Or.inl h1
    · exact Or.inr (Or.inl h1)
    · exact Or.inr (Or.inr (Or.inl h1))
    · obtain ⟨mx, hmx, hbx⟩ := move_keeps hm n mn hmn
      exact Or.inr (Or.inr (Or.inr ⟨h1, h2, h3, h4, n, mx, hn, hmx, by rw [hbx]; exact hbn⟩))
  · intro hx i mi hi hoi hbi
    rw [hexp] at hx
    obtain ⟨j, hj⟩ := hback i mi hi hoi
    obtain ⟨h1, h2, n, mn, hn, hmn, hbn⟩ := g.unsent hx j mi hj hoi hbi
    obtain ⟨mx, hmx, hbx⟩ := move_keeps hm n mn hmn
    rw [hsess, hinh]
    exact ⟨h1, h2, n, mx, hn, hmx, by rw [hbx]; exact hbn⟩


theorem destroy_session {sent : List Nat} {w : World} (g : Good sent w) {h : Nat}
    {m : message} (hm : w.handle h = some m)
    (hslip : m.is_owning = true → m.base_ ∈ sent →
      w.expired = true ∨ w.session.state_ = state.writing ∨
        w.session.state_ = state.reading) :
    ∃ w0, message.destroy w h = some w0 ∧ w0.expired = w.expired ∧
      w0.in_handler = w.in_handler ∧ w0.handles = w.handles.set h none ∧
      w0.heap.length = w.heap.length ∧
      ((w0.session = w.session ∧
          (w.expired = false → w.session.state_ = state.reading_completed →
            m.is_owning = false)) ∨
        (w.expired = false ∧ w0.session.state_ = state.reading ∧
          w0.session.ws_.accepts = 0 ∧ w0.session.ws_.reads = 1 ∧
          w0.session.ws_.writes = 0 ∧
          ∀ i mi, w0.handle i = some mi → mi.is_owning = true → mi.base_ ∉ sent →
            False)) := by
  cases ho : m.is_owning with
  | false =>
    refine ⟨{ w with handles := w.handles.set h none }, ?_, rfl, rfl, rfl, rfl,
      Or.inl ⟨rfl, fun _ _ => rfl⟩⟩
    simp [message.destroy, hm, ho]
  | true =>
    have hsn := g.own.unsent_flag h m hm
    by_cases hquiet : w.expired = true ∨ w.session.state_ = state.writing ∨
        w.session.state_ = state.reading
    · have hr : wrapper.do_read w = some w := by
        obtain ⟨s, e, hp, hs, ih⟩ := w
        simp only at hquiet
        unfold wrapper.do_read World.lock
        cases e
        · have hq : s.state_ = state.writing ∨ s.state_ = state.reading := by
            simpa using hquiet
          simp [ws_session.do_read, hq]
        · simp
      refine ⟨{ w with heap := w.heap.set m.base_ false, handles := w.handles.set h none },
        ?_, rfl, rfl, rfl, by simp, Or.inl ⟨rfl, ?_⟩⟩
      · simp [message.destroy, hm, ho, hsn, hr]
      · intro hx hst
        rcases hquiet with h1 | h1 | h1
        · rw [hx] at h1; cases h1
        · rw [hst] at h1; cases h1
        · rw [hst] at h1; cases h1
    · have hexp : w.expired = false := by
        cases he : w.expired with
        | false => rfl
        | true => exact absurd (Or.inl he) hquiet
      have hb : m.base_ ∉ sent := fun hx => hquiet (hslip ho hx)
      obtain ⟨hst, _, n, mn, hn, hmn, hbn⟩ := g.unsent hexp h m hm ho hb
      have hph : w.session.ws_.accepts = 0 ∧ w.session.ws_.reads = 0 ∧
          w.session.ws_.writes = 0 := by
        rcases g.phase hexp with ⟨h1, _⟩ | ⟨h1, _⟩ | ⟨h1, _⟩ | ⟨_, h2, h3, h4, _⟩
        · rw [hst] at h1; cases h1
        · rw [hst] at h1; cases h1
        · rw [hst] at h1; cases h1
        · exact ⟨h2, h3, h4⟩
      obtain ⟨hacc, hrd, hwr⟩ := hph
      refine ⟨
        { session :=
            { w.session with
                state_ := state.reading, input_buffer := [],
                ws_ := { w.session.ws_ with reads := 1 },
                trace := w.session.trace ++ [effect.async_read] },
          expired := w.expired,
          heap := w.heap.set m.base_ false,
          handles := w.handles.set h none,
          in_handler := w.in_handler }, ?_, rfl, rfl, rfl, by simp,
        Or.inr ⟨hexp, rfl, hacc, rfl, hwr, ?_⟩⟩
      · simp [message.destroy, hm, ho, hsn, wrapper.do_read, World.lock, hexp,
          ws_session.do_read, hst, stream.async_read, hrd]
      · intro i mi hi hoi hbi
        rw [handle_set_none rfl] at hi
        by_cases h1 : i = h
        · rw [if_pos h1] at hi; simp at hi
        · rw [if_neg h1] at hi
          obtain ⟨_, _, n1, mn1, hn1, hmn1, hbn1⟩ := g.unsent hexp i mi hi hoi hbi
          rw [hn] at hn1
          have hnn : n = n1 := Option.some.inj hn1
          subst hnn
          rw [hmn] at hmn1
          have hmm : mn = mn1 := Option.some.inj hmn1
          subst hmm
          exact h1 (g.own.uniq i h mi m hi hm hoi ho (by rw [← hbn1, hbn]))

theorem good_destroy {sent : List Nat} {w : World} (g : Good sent w) (h : Nat)
    (hd : op_defined w (op.destroy h) = true)
    (hf : finalizes_once sent w (event.app (op.destroy h)) = true) :
    ∃ w1, step w (event.app (op.destroy h)) = some w1 ∧ Good sent w1 := by
  simp only [op_defined, Bool.and_eq_true, Bool.not_eq_true', beq_eq_false_iff_ne, ne_eq]
    at hd
  obtain ⟨m, hm⟩ := Option.isSome_iff_exists.1 hd.1
  have hnarg : w.in_handler ≠ some h := hd.2
  have hslip : m.is_owning = true → m.base_ ∈ sent →
      w.expired = true ∨ w.session.state_ = state.writing ∨
        w.session.state_ = state.reading := by
    intro ho hb
    simp only [finalizes_once, hm, ho, hb, decide_True, Bool.and_self, Bool.not_true,
      Bool.false_or, Bool.or_eq_true, decide_eq_true_eq] at hf
    rcases hf with (hf | hf) | hf
    · exact Or.inl hf
    · exact Or.inr (Or.inl hf)
    · exact Or.inr (Or.inr hf)
  obtain ⟨w0, hdes, hexp0, hinh0, hh0, hlen0, hcase⟩ := destroy_session g hm hslip
  have hstep : step w (event.app (op.destroy h)) = some w0 := by
    simp only [step, exec]
    exact hdes
  have hown := ownership_step hstep g.own
  have hlt : ∀ b, b ∈ sent → b < w0.heap.length := by
    intro b hb
    rw [hlen0]
    exact g.sent_lt b hb
  have hsub : ∀ i mi, w0.handle i = some mi → i ≠ h ∧ w.handle i = some mi := by
    intro i mi hi
    rw [handle_set_none hh0] at hi
    by_cases h1 : i = h
    · rw [if_pos h1] at hi; simp at hi
    · rw [if_neg h1] at hi; exact ⟨h1, hi⟩
  have hsup : ∀ i mi, i ≠ h → w.handle i = some mi → w0.handle i = some mi := by
    intro i mi h1 hi
    rw [handle_set_none hh0, if_neg h1]
    exact hi
  have harg : ∀ n, w0.in_handler = some n → ∃ mx, w0.handle n = some mx := by
    intro n hn
    rw [hinh0] at hn
    obtain ⟨mn, hmn⟩ := g.arg_alive n hn
    have hne : n ≠ h := fun hx => hnarg (by rw [hn, hx])
    exact ⟨mn, hsup n mn hne hmn⟩
  refine ⟨w0, hstep, ?_⟩
  rcases hcase with ⟨hsess, _⟩ | ⟨hexp, hst, hacc, hrd, hwr, hno⟩
  · refine ⟨hown, hlt, harg, ?_, ?_, ?_⟩
    · intro hx
      rw [hexp0] at hx
      rw [hinh0, hsess]
      exact g.expired_idle hx
    · intro hx
      rw [hexp0] at hx
      rw [hsess, hinh0]
      rcases g.phase hx with h1 | h1 | h1 | ⟨h1, h2, h3, h4, n, mn, hn, hmn, hbn⟩
      · exact Or.inl h1
      · exact Or.inr (Or.inl h1)
      · exact Or.inr (Or.inr (Or.inl h1))
      · have hne : n ≠ h := fun hx => hnarg (by rw [hn, hx])
        exact Or.inr (Or.inr (Or.inr ⟨h1, h2, h3, h4, n, mn, hn, hsup n mn hne hmn, hbn⟩))
    · intro hx i mi hi hoi hbi
      rw [hexp0] at hx
      obtain ⟨h1, h2, n, mn, hn, hmn, hbn⟩ := g.unsent hx i mi (hsub i mi hi).2 hoi hbi
      have hne : n ≠ h := fun hx => hnarg (by rw [hn, hx])
      rw [hsess, hinh0]
      exact ⟨h1, h2, n, mn, hn, hsup n mn hne hmn, hbn⟩
  · refine Good.settle hown hlt harg ?_ ?_ ?_
    · intro hx
      rw [hexp0, hexp] at hx
      cases hx
    · intro _; right; left; exact ⟨hst, hacc, hrd, hwr⟩
    · intro _; exact hno

theorem release_expired (w : World) :
    (w.release.expired = true →
      w.expired = true ∨
        (w.session.ws_.accepts = 0 ∧ w.session.ws_.reads = 0 ∧ w.session.ws_.writes = 0)) ∧
    (w.release.expired = false →
      w.expired = false ∧
        ¬ (w.session.ws_.accepts = 0 ∧ w.session.ws_.reads = 0 ∧
          w.session.ws_.writes = 0)) := by
  unfold World.release
  split
  · rename_i hz
    refine ⟨fun _ => Or.inr (by omega), fun hx => by cases hx⟩
  · rename_i hz
    refine ⟨fun hx => Or.inl hx, fun hx => ⟨hx, fun hc => hz (by omega)⟩⟩

theorem good_handler_return {sent : List Nat} {w : World} (g : Good sent w) :
    ∃ w1, step w event.handler_return = some w1 ∧ Good sent w1 := by
  cases hi : w.in_handler with
  | none => exact ⟨w, by simp [step, hi], g⟩
  | some n =>
    obtain ⟨mn, hmn⟩ := g.arg_alive n hi
    have hexp : w.expired = false := by
      cases he : w.expired with
      | false => rfl
      | true =>
        have := (g.expired_idle he).1
        rw [hi] at this
        cases this
    have hslip : mn.is_owning = true → mn.base_ ∈ sent →
        w.expired = true ∨ w.session.state_ = state.writing ∨
          w.session.state_ = state.reading := by
      intro _ hb
      rcases g.phase hexp with ⟨_, _, _, _, h5⟩ | ⟨h1, _⟩ | ⟨h1, _⟩ |
          ⟨_, _, _, _, n1, mn1, hn1, hmn1, hbn1⟩
      · rw [hi] at h5; cases h5
      · exact Or.inr (Or.inr h1)
      · exact Or.inr (Or.inl h1)
      · rw [hi] at hn1
        have hnn : n = n1 := Option.some.inj hn1
        subst hnn
        rw [hmn] at hmn1
        have hmm : mn = mn1 := Option.some.inj hmn1
        subst hmm
        exact absurd hb hbn1
    obtain ⟨w0, hdes, hexp0, hinh0, hh0, hlen0, hcase⟩ := destroy_session g hmn hslip
    have hstep : step w event.handler_return =
        some (World.release { w0 with in_handler := none }) := by
      simp [step, hi, hdes]
    have hown := ownership_step hstep g.own
    obtain ⟨hrh, hrp, hrs, hri⟩ := release_handles { w0 with in_handler := none }
    obtain ⟨hre1, hre2⟩ := release_expired { w0 with in_handler := none }
    have hsub : ∀ i mi, w0.handle i = some mi → w.handle i = some mi := by
      intro i mi hi0
      rw [handle_set_none hh0] at hi0
      by_cases h1 : i = n
      · rw [if_pos h1] at hi0; simp at hi0
      · rw [if_neg h1] at hi0; exact hi0
    refine ⟨_, hstep, Good.settle hown ?_ ?_ ?_ ?_ ?_⟩
    · intro b hb
      rw [hrp]
      show b < w0.heap.length
      rw [hlen0]
      exact g.sent_lt b hb
    · intro k hk
      rw [hri] at hk
      cases hk
    · intro hx
      rw [hri, hrs]
      refine ⟨rfl, ?_⟩
      rcases hre1 hx with h1 | h1
      · have h2 : w0.expired = true := h1
        rw [hexp0, hexp] at h2
        cases h2
      · exact h1
    · intro hx
      obtain ⟨_, hnz⟩ := hre2 hx
      rw [hrs]
      show (w0.session.state_ = state.none ∧ _) ∨ _
      rcases hcase with ⟨hsess, _⟩ | ⟨_, hst, hacc, hrd, hwr, _⟩
      · rw [hsess]
        rcases g.phase hexp with ⟨_, _, _, _, h5⟩ | h1 | h1 | ⟨_, h2, h3, h4, _⟩
        · rw [hi] at h5; cases h5
        · exact Or.inr (Or.inl h1)
        · exact Or.inr (Or.inr h1)
        · exfalso
          apply hnz
          show w0.session.ws_.accepts = 0 ∧ w0.session.ws_.reads = 0 ∧
            w0.session.ws_.writes = 0
          rw [hsess]
          exact ⟨h2, h3, h4⟩
      · exact Or.inr (Or.inl ⟨hst, hacc, hrd, hwr⟩)
    · intro hx i mi hi0 hoi hbi
      obtain ⟨_, hnz⟩ := hre2 hx
      have hi1 : w0.handle i = some mi := by
        simpa [World.handle, hrh] using hi0
      rcases hcase with ⟨hsess, _⟩ | ⟨_, _, _, _, _, hno⟩
      · obtain ⟨hst, _⟩ := g.unsent hexp i mi (hsub i mi hi1) hoi hbi
        rcases g.phase hexp with ⟨h1, _⟩ | ⟨h1, _⟩ | ⟨h1, _⟩ | ⟨_, h2, h3, h4, _⟩
        · rw [hst] at h1; cases h1
        · rw [hst] at h1; cases h1
        · rw [hst] at h1; cases h1
        · apply hnz
          show w0.session.ws_.accepts = 0 ∧ w0.session.ws_.reads = 0 ∧
            w0.session.ws_.writes = 0
          rw [hsess]
          exact ⟨h2, h3, h4⟩
      · exact hno i mi hi1 hoi hbi


theorem good_step {sent : List Nat} {w : World} (g : Good sent w) (ev : event)
    (hd : event_defined w ev = true) (hs : sends_once sent w ev = true)
    (hf : finalizes_once sent w ev = true) :
    ∃ w1, step w ev = some w1 ∧ Good (sent_after sent w ev) w1 := by
  cases ev with
  | on_accept ec => exact good_on_accept g ec
  | on_read ec delivered => exact good_on_read g ec delivered
  | on_write ec => exact good_on_write g ec
  | handler_return => exact good_handler_return g
  | app o =>
    cases o with
    | data_out h bytes => exact good_data_out g h bytes hd
    | send h => exact good_send g h hd hs
    | move h => exact good_move g h hd
    | destroy h => exact good_destroy g h hd hf

theorem good_run_from (evs : List event) :
    ∀ (sent : List Nat) (w : World), Good sent w → disciplined sent w evs = true →
      ∃ w1, run_from w evs = some w1 ∧ Good (sent_in sent w evs) w1 := by
  induction evs with
  | nil =>
    intro sent w g _
    exact ⟨w, rfl, g⟩
  | cons ev evs ih =>
    intro sent w g hd
    simp only [disciplined, Bool.and_eq_true] at hd
    obtain ⟨⟨⟨h1, h2⟩, h3⟩, h4⟩ := hd
    obtain ⟨w1, hstep, g1⟩ := good_step g ev h1 h2 h3
    rw [hstep] at h4
    obtain ⟨w2, hrun, g2⟩ := ih _ w1 g1 h4
    refine ⟨w2, ?_, ?_⟩
    · simp only [run_from, hstep, Option.some_bind]
      exact hrun
    · simp only [sent_in, hstep]
      exact g2

theorem Good.single_flight {sent : List Nat} {w : World} (g : Good sent w) :
    w.session.ws_.reads + w.session.ws_.writes ≤ 1 := by
  cases he : w.expired with
  | true =>
    obtain ⟨_, _, h1, h2⟩ := g.expired_idle he
    omega
  | false =>
    rcases g.phase he with ⟨_, _, h1, h2, _⟩ | ⟨_, _, h1, h2⟩ | ⟨_, _, h1, h2⟩ |
        ⟨_, _, h1, h2, _⟩ <;> omega

theorem Good.unfinalized {sent : List Nat} {w : World} (g : Good sent w) {i : Nat}
    {m : message} (hm : w.handle i = some m) (ho : m.is_owning = true)
    (hb : m.base_ ∉ sent) :
    w.session.ws_.reads = 0 ∧ (w.expired = false → w.session.input_buffer = m.buffer_read) := by
  cases he : w.expired with
  | true =>
    obtain ⟨_, _, h1, _⟩ := g.expired_idle he
    exact ⟨h1, fun hx => by cases hx⟩
  | false =>
    obtain ⟨hst, hview, _⟩ := g.unsent he i m hm ho hb
    refine ⟨?_, fun _ => hview.symm⟩
    rcases g.phase he with ⟨h1, _⟩ | ⟨h1, _⟩ | ⟨h1, _⟩ | ⟨_, _, h3, _⟩
    · rw [hst] at h1; cases h1
    · rw [hst] at h1; cases h1
    · rw [hst] at h1; cases h1
    · exact h3

/-! ## Single flight and the frame in dispatch -/

/-- C1 (as stated, refuted): `do_write` has no guard.  A dispatcher keeps the
handle of a frame, calls `send()` on it, and calls `send()` on it again after the
write has completed and the next read has been issued; a read and a write are
then outstanding at the same time.  Calling `send()` twice within one dispatcher
call, on the same object or on an object and the one moved from it, starts a
second write while the first is outstanding, for which the stream has no defined
behaviour. -/
theorem single_flight_broken_by_second_send :
    (∃ w, run (example_kept_after_send ++ [event.app (op.send 1)]) = some w ∧
      w.session.ws_.reads = 1 ∧ w.session.ws_.writes = 1) ∧
    run [event.on_accept error_code.success, event.on_read error_code.success [1],
      event.app (op.send 0), event.app (op.send 0)] = none ∧
    run [event.on_accept error_code.success, event.on_read error_code.success [1],
      event.app (op.move 0), event.app (op.send 1), event.app (op.send 0)] = none :=
  ⟨⟨_, rfl, rfl, rfl⟩, rfl, rfl⟩

/-- C1 (amended): single flight holds when `send()` is called at most once for
each frame.  For every sequence of transport completions and handle operations
(writing to `data_out()`, `send()`, moving, retaining, destroying) in which every
operation has defined behaviour, `send()` is called at most once for each frame,
and the owning handle of a frame for which `send()` has been called is destroyed
only while the session is in state `writing` or `reading` or after the session
is gone, the session never starts a second read or a second write (the run has a
defined outcome), at most one read and at most one write are outstanding, and
never both. -/
theorem single_flight_of_disciplined (evs : List event)
    (hd : disciplined [] World.init evs = true) :
    ∃ w, run evs = some w ∧
      w.session.ws_.reads ≤ 1 ∧ w.session.ws_.writes ≤ 1 ∧
      ¬ (w.session.ws_.reads = 1 ∧ w.session.ws_.writes = 1) := by
  obtain ⟨w, hrun, g⟩ := good_run_from evs [] World.init init_good hd
  have := g.single_flight
  exact ⟨w, hrun, by omega, by omega, by omega⟩

theorem single_flight_of_disciplined_witness :
    (disciplined [] World.init example_retained = true ∧
      ∃ w, run example_retained = some w ∧
        w.session.ws_.reads ≤ 1 ∧ w.session.ws_.writes ≤ 1 ∧
        ¬ (w.session.ws_.reads = 1 ∧ w.session.ws_.writes = 1)) ∧
    (disciplined [] World.init example_session = true ∧
      ∃ w, run example_session = some w ∧
        w.session.ws_.reads ≤ 1 ∧ w.session.ws_.writes ≤ 1 ∧
        ¬ (w.session.ws_.reads = 1 ∧ w.session.ws_.writes = 1)) :=
  ⟨⟨rfl, single_flight_of_disciplined example_retained rfl⟩,
    ⟨rfl, single_flight_of_disciplined example_session rfl⟩⟩

/-- C2 (as stated, refuted): the dispatcher of frame `[2]` calls `send()` on the
handle it kept from frame `[1]` (a second `send()` for that frame) and keeps the
handle of frame `[2]` (object 3) without calling `send()` on it or destroying it.
When the write completes, the session clears the input buffer and issues a new
read although object 3 is still alive and unfinalized; its view denoted the
bytes `[2]`. -/
theorem read_issued_while_handle_unfinalized :
    ∃ w w1, run (example_kept_after_send ++
        [event.on_read error_code.success [2], event.app (op.send 1),
         event.app (op.move 2), event.handler_return]) = some w ∧
      w.handle 3 =
        some { base_ := 1, is_owning := true, is_sent := false, buffer_read := [2] } ∧
      w.session.input_buffer = [2] ∧ w.session.ws_.reads = 0 ∧
      step w (event.on_write error_code.success) = some w1 ∧
      w1.session.trace = w.session.trace ++ [effect.async_read] ∧
      w1.session.ws_.reads = 1 ∧ w1.session.input_buffer = [] ∧
      w1.handle 3 =
        some { base_ := 1, is_owning := true, is_sent := false, buffer_read := [2] } :=
  ⟨_, _, rfl, rfl, rfl, rfl, rfl, rfl, rfl, rfl, rfl⟩

/-- C2 (amended): no read before finalization when `send()` is called at most
once for each frame.  For any sequence of frames and any dispatcher behaviour,
retaining handles past the dispatcher call included, in which every operation
has defined behaviour, `send()` is called at most once for each frame, and the
owning handle of a frame for which `send()` has been called is destroyed only
while the session is in state `writing` or `reading` or after the session is
gone: in every state of the run, as long as a handle that owns its frame is
alive and `send()` has not been called for that frame, no read is outstanding,
and the input buffer of the session, as long as the session exists, holds
exactly the bytes of the handle's `data()` view.  So no read is issued, and the
input buffer is neither cleared nor reused, before the handle has finalized. -/
theorem no_read_while_handle_unfinalized (evs : List event)
    (hd : disciplined [] World.init evs = true) :
    ∃ w, run evs = some w ∧
      ∀ i m, w.handle i = some m → m.is_owning = true →
        m.base_ ∉ sent_in [] World.init evs →
        w.session.ws_.reads = 0 ∧
        (w.expired = false → w.session.input_buffer = m.buffer_read) := by
  obtain ⟨w, hrun, g⟩ := good_run_from evs [] World.init init_good hd
  exact ⟨w, hrun, fun i m hm ho hb => g.unfinalized hm ho hb⟩

theorem no_read_while_handle_unfinalized_witness :
    (disciplined [] World.init example_in_dispatch = true ∧
      ∃ w, run example_in_dispatch = some w ∧
        w.handle 1 =
          some { base_ := 0, is_owning := true, is_sent := false, buffer_read := [1, 2] } ∧
        w.expired = false ∧ w.session.ws_.reads = 0 ∧ w.session.input_buffer = [1, 2]) ∧
    (disciplined [] World.init example_retained_unsent = true ∧
      ∃ w, run example_retained_unsent = some w ∧
        w.handle 1 =
          some { base_ := 0, is_owning := true, is_sent := false, buffer_read := [1, 2] } ∧
        w.expired = true ∧ w.session.ws_.reads = 0) := by
  refine ⟨⟨rfl, ?_⟩, ⟨rfl, ?_⟩⟩
  · obtain ⟨w, hrun, hall⟩ := no_read_while_handle_unfinalized example_in_dispatch rfl
    have hw : w = (run example_in_dispatch).getD World.init := by
      rw [hrun]
      rfl
    subst hw
    have h := hall 1
      { base_ := 0, is_owning := true, is_sent := false, buffer_read := [1, 2] }
      rfl rfl (by decide)
    exact ⟨_, hrun, rfl, rfl, h.1, h.2 rfl⟩
  · obtain ⟨w, hrun, hall⟩ := no_read_while_handle_unfinalized example_retained_unsent rfl
    have hw : w = (run example_retained_unsent).getD World.init := by
      rw [hrun]
      rfl
    subst hw
    have h := hall 1
      { base_ := 0, is_owning := true, is_sent := false, buffer_read := [1, 2] }
      rfl rfl (by decide)
    exact ⟨_, hrun, rfl, rfl, h.1⟩

end ws
